import Mathlib

/-!
Verification of the DayOne-to-Obsidian conversion pipeline.

This file gives a shallow embedding, in Lean 4, of the Python sources
`utils.py`, `entry.py` and `import.py` of the repository, and proves or
refutes the frozen specification claims about them.

Modelling conventions:
* Python strings are Lean `String`s; scanning functions work on `List Char`
  (the `.data` of a string) and are wrapped back into `String` at the edges.
* Python's partial functions (such as `capwords`, which raises `IndexError`
  on empty words) are embedded as `Option`-returning functions; `none`
  models an uncaught exception.
* `str.upper` / `str.lower` are modelled per character with the ASCII case
  mapping (all strings relevant to the claims are ASCII or case-less).
* `dateutil` ISO parsing and the `pytz` timezone database are external
  dependencies: entries carry an already-parsed structured timestamp, and
  `astimezone` is a conversion oracle passed as a parameter (`TzOracle`).
* JSON numbers in weather blocks are modelled as integer-valued numbers
  (`Int`). Python's `round(n, 1)` on an `int` returns the `int` unchanged
  and `str` renders it without a decimal point, which the model mirrors;
  binary floating point is out of scope.
* GPS latitude/longitude values are carried as their rendered string form,
  since no claim inspects them numerically.
* The filesystem is modelled by the list of written files (path, content);
  attachment renames happen in sibling directories and touch no `*.json`
  source file, so the source-file component of the folder state is only
  changed by operations that actually rename sources (there are none).
-/

/-! ## ASCII case mapping (Python `str.upper` / `str.lower`, per character) -/

/-- ASCII uppercase mapping of one character, as Python's `str.upper`
restricted to ASCII: `'a'..'z'` map down by 32, everything else is fixed. -/
def upperChar (c : Char) : Char :=
  if 'a' ≤ c ∧ c ≤ 'z' then Char.ofNat (c.toNat - 32) else c

/-- ASCII lowercase mapping of one character, as Python's `str.lower`
restricted to ASCII: `'A'..'Z'` map up by 32, everything else is fixed. -/
def lowerChar (c : Char) : Char :=
  if 'A' ≤ c ∧ c ≤ 'Z' then Char.ofNat (c.toNat + 32) else c

/-! ## `capwords` (identical helper in `utils.py` and `entry.py`)

```python
def capwords(string: str, sep: str = "") -> str:
    return sep.join(word[0].upper() + word[1:].lower() for word in string.split(" "))
```

`string.split(" ")` splits on every single space and keeps empty pieces
(`"".split(" ") == [""]`, `"a  b".split(" ") == ["a", "", "b"]`).
`word[0]` raises `IndexError` on an empty word, so `capwords` is partial;
the embedding returns `none` exactly in that case. -/

/-- Python `string.split(" ")`: split on every single space character,
keeping empty pieces; the result is always nonempty. -/
def splitSpaces : List Char → List (List Char)
  | [] => [[]]
  | c :: cs =>
    match splitSpaces cs with
    | [] => [[]]
    | w :: ws => if c = ' ' then [] :: w :: ws else (c :: w) :: ws

/-- Map an `Option`-returning function over a list, evaluating in order
and propagating the first failure (Python's generator evaluation, where
an uncaught exception aborts the whole expression). -/
def mapOpt {A B : Type} (f : A → Option B) : List A → Option (List B)
  | [] => some []
  | x :: xs => do
    let y ← f x
    let ys ← mapOpt f xs
    pure (y :: ys)

/-- Python `word[0].upper() + word[1:].lower()`: `none` models the
`IndexError` raised on an empty word. -/
def capword : List Char → Option (List Char)
  | [] => none
  | c :: cs => some (upperChar c :: cs.map lowerChar)

/-- The body of `capwords` with `sep = ""` on character lists. -/
def capwordsL (l : List Char) : Option (List Char) := do
  let ws ← mapOpt capword (splitSpaces l)
  pure ws.flatten

/-- The function `capwords` from `utils.py` / `entry.py` (with the default `sep = ""`),
embedded as a total function into `Option String`. -/
def capwords (s : String) : Option String :=
  (capwordsL s.data).map String.mk

/-! ## Generic list-of-characters scanning helpers -/

/-- Test whether `pat` is an initial segment of `hay`. -/
def startsWithL : List Char → List Char → Bool
  | [], _ => true
  | _ :: _, [] => false
  | p :: ps, h :: hs => p = h && startsWithL ps hs

/-- Test whether `pat` occurs contiguously inside `hay`. -/
def containsSub (hay pat : List Char) : Bool :=
  match hay with
  | [] => pat.isEmpty
  | _ :: t => startsWithL pat hay || containsSub t pat

/-- Python `pat in hay` on strings (substring containment). -/
def strContains (hay pat : String) : Bool :=
  containsSub hay.data pat.data

/-- Remove `pat` from the front of `l`, or fail. -/
def stripPre : List Char → List Char → Option (List Char)
  | [], l => some l
  | _ :: _, [] => none
  | p :: ps, h :: hs => if p = h then stripPre ps hs else none

theorem stripPre_append (p l : List Char) : stripPre p (p ++ l) = some l := by
  induction p with
  | nil => rfl
  | cons c cs ih => simp [stripPre, ih]

theorem stripPre_length {p l r : List Char} (h : stripPre p l = some r) :
    r.length + p.length = l.length := by
  induction p generalizing l with
  | nil => simp [stripPre] at h; simp [h]
  | cons c cs ih =>
    match l with
    | [] => simp [stripPre] at h
    | x :: xs =>
      simp only [stripPre] at h
      split at h
      · have := ih h; simp [List.length_cons]; omega
      · exact absurd h (by simp)

/-! ## Attachment placeholder rewriting (`process_journal`, `utils.py`)

Each attachment category rewrites in-text placeholders with
`re.sub(r"(\!\[\]\((scheme))([A-F0-9]+)(\))", r"![[\2.(ext)]]", text)`:
scan left to right; at the first position where the literal scheme prefix
is followed by a nonempty run of uppercase-hex characters and then `)`,
replace the whole match by `![[` + hex + `.` + ext + `]]` and continue
scanning after the match (replaced text is not rescanned). -/

/-- The regex character class `[A-F0-9]` (case-sensitive). -/
def isHexUp (c : Char) : Bool := ('A' ≤ c && c ≤ 'F') || ('0' ≤ c && c ≤ '9')

/-- Try to match `pre` + `[A-F0-9]+` + `)` at the head of `l`; on success
return the captured hex run and the remainder after the closing `)`. -/
def matchMoment (pre l : List Char) : Option (List Char × List Char) :=
  match stripPre pre l with
  | none => none
  | some r =>
    match r.dropWhile isHexUp with
    | c :: rest =>
      if r.takeWhile isHexUp ≠ [] ∧ c = ')' then some (r.takeWhile isHexUp, rest)
      else none
    | [] => none

theorem matchMoment_length {pre l u rest : List Char}
    (h : matchMoment pre l = some (u, rest)) : rest.length < l.length := by
  unfold matchMoment at h
  cases hs : stripPre pre l with
  | none => rw [hs] at h; simp at h
  | some r =>
    rw [hs] at h
    dsimp only at h
    have hrl : r.length ≤ l.length := by have := stripPre_length hs; omega
    cases hd : r.dropWhile isHexUp with
    | nil => rw [hd] at h; simp at h
    | cons c cr =>
      rw [hd] at h
      dsimp only at h
      split at h
      · next hcond =>
        simp only [Option.some.injEq, Prod.mk.injEq] at h
        have e1 : (r.takeWhile isHexUp).length + (r.dropWhile isHexUp).length
            = r.length := by
          rw [← List.length_append, List.takeWhile_append_dropWhile]
        have e2 : 1 ≤ (r.takeWhile isHexUp).length := by
          cases he : r.takeWhile isHexUp with
          | nil => exact absurd he hcond.1
          | cons _ _ => simp
        rw [hd] at e1
        simp only [List.length_cons] at e1
        rw [← h.2]
        omega
      · simp at h

/-- Scan driver for one `re.sub` pass of an attachment placeholder pattern.
The fuel argument bounds the number of scan steps; it is called with the
length of the remaining text, which suffices because every step consumes at
least one character, so the `0` case (which returns the text unchanged) is
only ever reached on an empty remainder. -/
def subGo (pre ext : List Char) : Nat → List Char → List Char
  | 0, l => l
  | fuel + 1, l =>
    match l with
    | [] => []
    | c :: cs =>
      match matchMoment pre (c :: cs) with
      | some (u, rest) =>
        "![[".data ++ u ++ '.' :: ext ++ "]]".data ++ subGo pre ext fuel rest
      | none => c :: subGo pre ext fuel cs

/-- One `re.sub` pass for an attachment placeholder pattern: `pre` is the
literal scheme prefix, `ext` the extension spliced into the replacement
`![[` + hex + `.` + ext + `]]`. -/
def subDayOne (pre ext l : List Char) : List Char := subGo pre ext l.length l

theorem subGo_nil (pre ext : List Char) (f : Nat) : subGo pre ext f [] = [] := by
  cases f <;> rfl

theorem subGo_fuel (pre ext : List Char) :
    ∀ f g l, l.length ≤ f → l.length ≤ g →
      subGo pre ext f l = subGo pre ext g l := by
  intro f
  induction f with
  | zero =>
    intro g l hf _
    have : l = [] := List.length_eq_zero.mp (Nat.le_zero.mp hf)
    subst this
    rw [subGo_nil, subGo_nil]
  | succ f ih =>
    intro g l hf hg
    match l with
    | [] => rw [subGo_nil, subGo_nil]
    | c :: cs =>
      match g with
      | 0 => simp at hg
      | g + 1 =>
        simp only [subGo]
        cases hm : matchMoment pre (c :: cs) with
        | some p =>
          match p with
          | (u, rest) =>
            have hr := matchMoment_length hm
            dsimp only
            simp only [List.length_cons] at hf hg hr
            rw [ih g rest (by omega) (by omega)]
        | none =>
          dsimp only
          simp only [List.length_cons] at hf hg
          rw [ih g cs (by omega) (by omega)]

theorem subDayOne_skip {pre : List Char} (ext : List Char) {c : Char}
    {cs : List Char} (h : matchMoment pre (c :: cs) = none) :
    subDayOne pre ext (c :: cs) = c :: subDayOne pre ext cs := by
  unfold subDayOne
  simp only [List.length_cons, subGo, h]

theorem subDayOne_found {pre : List Char} (ext : List Char) {c : Char}
    {cs u rest : List Char} (h : matchMoment pre (c :: cs) = some (u, rest)) :
    subDayOne pre ext (c :: cs) =
      "![[".data ++ u ++ '.' :: ext ++ "]]".data ++ subDayOne pre ext rest := by
  have hr := matchMoment_length h
  unfold subDayOne
  simp only [List.length_cons, subGo, h]
  rw [subGo_fuel pre ext cs.length rest.length rest (by simp at hr; omega) (by omega)]

/-! ## Body-text sanitization (`process_journal`, `utils.py`)

```python
new_text = entry["text"].replace("\\", "")
new_text = new_text.replace("\u2028", "\n")
new_text = new_text.replace("\u1C6A", "\n\n")
new_text = new_text.replace("\u200b", "")
new_text = re.sub(r"```\s+```", "", new_text, flags=re.MULTILINE)
```
-/

/-- Python's `\s` whitespace class (the six ASCII whitespace characters;
the texts in the claims contain no non-ASCII whitespace). -/
def isPySpace (c : Char) : Bool :=
  c = ' ' || c = '\t' || c = '\n' || c = '\x0d' || c = '\x0b' || c = '\x0c'

/-- Try to match ```` ``` ```` + `\s+` + ```` ``` ```` at the head of `l`
(the `\s+` is effectively maximal since a backtick is not whitespace);
on success return the remainder after the match. -/
def matchFence (l : List Char) : Option (List Char) :=
  match stripPre "```".data l with
  | none => none
  | some r =>
    if r.takeWhile isPySpace = [] then none
    else
      match stripPre "```".data (r.dropWhile isPySpace) with
      | some rest => some rest
      | none => none

theorem matchFence_length {l rest : List Char} (h : matchFence l = some rest) :
    rest.length < l.length := by
  unfold matchFence at h
  cases hs : stripPre "```".data l with
  | none => rw [hs] at h; simp at h
  | some r =>
    rw [hs] at h
    dsimp only at h
    have hrl := stripPre_length hs
    split at h
    · simp at h
    · next hne =>
      cases hs2 : stripPre "```".data (r.dropWhile isPySpace) with
      | none => rw [hs2] at h; simp at h
      | some rest2 =>
        rw [hs2] at h
        simp only [Option.some.injEq] at h
        subst h
        have h2 := stripPre_length hs2
        have h3 : (r.dropWhile isPySpace).length ≤ r.length := by
          have e : (r.takeWhile isPySpace ++ r.dropWhile isPySpace).length
              = r.length := by rw [List.takeWhile_append_dropWhile]
          rw [List.length_append] at e
          omega
        simp only [List.length_cons] at hrl h2 ⊢
        omega

/-- Scan driver for `re.sub(r"```\s+```", "", text)`; fuel as in `subGo`. -/
def fenceGo : Nat → List Char → List Char
  | 0, l => l
  | fuel + 1, l =>
    match l with
    | [] => []
    | c :: cs =>
      match matchFence (c :: cs) with
      | some rest => fenceGo fuel rest
      | none => c :: fenceGo fuel cs

/-- The substitution `re.sub(r"```\s+```", "", text)`: collapse an empty fenced code block. -/
def collapseFences (l : List Char) : List Char := fenceGo l.length l

/-- The four character-level replacements applied to the raw body text,
followed by the empty-code-fence collapse, in source order. -/
def sanitizeChars (l : List Char) : List Char :=
  let l1 := l.filter (fun c => c ≠ '\\')
  let l2 := l1.map (fun c => if c = '\u2028' then '\n' else c)
  let l3 := l2.flatMap (fun c => if c = '\u1C6A' then ['\n', '\n'] else [c])
  let l4 := l3.filter (fun c => c ≠ '\u200B')
  collapseFences l4

/-! ## The four attachment placeholder scheme prefixes and their rewrites -/

/-- Photo placeholder scheme: `![](dayone-moment://`. -/
def photoPre : List Char := "![](dayone-moment://".data

/-- PDF placeholder scheme: `![](dayone-moment:/pdfAttachment/`. -/
def pdfPre : List Char := "![](dayone-moment:/pdfAttachment/".data

/-- Audio placeholder scheme: `![](dayone-moment:/audio/`. -/
def audioPre : List Char := "![](dayone-moment:/audio/".data

/-- Video placeholder scheme: `![](dayone-moment:/video/`. -/
def videoPre : List Char := "![](dayone-moment:/video/".data

/-- One photo attachment descriptor from the JSON export (`md5` content
hash, stable `identifier`, `type` extension). The hash and identifier only
drive on-disk renames; the text rewrite uses only `type`. -/
structure JPhoto where
  md5 : String
  identifier : String
  type : String
deriving DecidableEq, Repr

/-- One PDF attachment descriptor (always rewritten with extension `pdf`). -/
structure JPdf where
  md5 : String
  identifier : String
deriving DecidableEq, Repr

/-- One audio attachment descriptor (the JSON reports no type; the code
assumes extension `m4a`). -/
structure JAudio where
  md5 : String
  identifier : String
deriving DecidableEq, Repr

/-- One video attachment descriptor. -/
structure JVideo where
  md5 : String
  identifier : String
  type : String
deriving DecidableEq, Repr

/-- The photo loop of `process_journal`: for each photo descriptor in
order, one global `re.sub` over the whole current text with that
descriptor's `type` as extension. -/
def rewritePhotos (photos : List JPhoto) (l : List Char) : List Char :=
  photos.foldl (fun acc p => subDayOne photoPre p.type.data acc) l

/-- The PDF loop: one global `re.sub` per descriptor, fixed extension. -/
def rewritePdfs (pdfs : List JPdf) (l : List Char) : List Char :=
  pdfs.foldl (fun acc _ => subDayOne pdfPre "pdf".data acc) l

/-- The audio loop: one global `re.sub` per descriptor, fixed extension. -/
def rewriteAudios (audios : List JAudio) (l : List Char) : List Char :=
  audios.foldl (fun acc _ => subDayOne audioPre "m4a".data acc) l

/-- The video loop: one global `re.sub` per descriptor. -/
def rewriteVideos (videos : List JVideo) (l : List Char) : List Char :=
  videos.foldl (fun acc v => subDayOne videoPre v.type.data acc) l

/-! ## Cross-entry link conversion (`process_journal`, `utils.py`)

```python
def replace_link(match: re.Match) -> str:
    link_text, uuid = match.groups()
    if uuid in uuid_to_file:
        return f"[[{uuid_to_file[uuid]}|{link_text}]]"
    return f"^[Linked entry with UUID `{uuid}` not found]"

regex = re.compile(r"\[(.*?)\]\(dayone2?:\/\/.*?([A-F0-9]+)\)")
text = re.sub(regex, replace_link, text)
```

The scanner below implements this regex faithfully: leftmost match wins;
`(.*?)` and `.*?` are lazy (shortest first) and `.` does not match a
newline; `2?` is greedy with backtracking; `([A-F0-9]+)` is greedy, and
since `)` is not a hex digit its backtracking never helps, so it always
captures a maximal nonempty hex run followed by `)`. -/

/-- First-match association-list lookup (Python `dict` lookup). -/
def lookupA {α : Type} : List (String × α) → String → Option α
  | [], _ => none
  | (k, v) :: r, key => if k = key then some v else lookupA r key

/-- The replacement function `replace_link`: a resolved UUID becomes a
same-vault link, an unresolved one becomes a footnote-style marker. -/
def replace_link (uuid_to_file : List (String × String))
    (link_text uuid : String) : String :=
  match lookupA uuid_to_file uuid with
  | some file => "[[" ++ file ++ "|" ++ link_text ++ "]]"
  | none => "^[Linked entry with UUID `" ++ uuid ++ "` not found]"

/-- Lazy `.*?([A-F0-9]+)\)`: at each position (skipping forward over
non-newline characters) try a maximal nonempty hex run followed by `)`;
return the captured run and the remainder after `)`. -/
def tryInner : List Char → Option (List Char × List Char)
  | [] => none
  | c :: cs =>
    match (c :: cs).dropWhile isHexUp with
    | d :: rest =>
      if (c :: cs).takeWhile isHexUp ≠ [] ∧ d = ')' then
        some ((c :: cs).takeWhile isHexUp, rest)
      else if c = '\n' then none else tryInner cs
    | [] => if c = '\n' then none else tryInner cs

/-- After the lazy link text: `\]\(dayone2?:\/\/` then the inner scan.
The optional `2` is greedy: the variant with `2` is tried first and the
variant without it is the backtracking fallback. -/
def tryClose (l : List Char) : Option (List Char × List Char) :=
  match stripPre "](dayone".data l with
  | none => none
  | some r =>
    match (match stripPre "2".data r with
           | some r2 =>
             (match stripPre "://".data r2 with
              | some r3 => tryInner r3
              | none => none)
           | none => none) with
    | some res => some res
    | none =>
      match stripPre "://".data r with
      | some r3 => tryInner r3
      | none => none

/-- Lazy `(.*?)` after the opening `[`: at each position first try to
complete the match via `tryClose`, else extend the captured link text by
one non-newline character. Returns (link text, UUID, remainder). -/
def tryText : List Char → Option (List Char × List Char × List Char)
  | [] => none
  | c :: cs =>
    match tryClose (c :: cs) with
    | some (u, rest) => some ([], u, rest)
    | none =>
      if c = '\n' then none
      else
        match tryText cs with
        | some (t, u, rest) => some (c :: t, u, rest)
        | none => none

/-- Attempt the whole link pattern at the head of `l`. -/
def tryLink : List Char → Option (List Char × List Char × List Char)
  | '[' :: r => tryText r
  | _ => none

theorem tryInner_length {l u rest : List Char}
    (h : tryInner l = some (u, rest)) : rest.length < l.length := by
  induction l with
  | nil => simp [tryInner] at h
  | cons c cs ih =>
    unfold tryInner at h
    cases hd : (c :: cs).dropWhile isHexUp with
    | nil =>
      rw [hd] at h
      dsimp only at h
      split at h
      · simp at h
      · have := ih h
        simp only [List.length_cons]
        omega
    | cons d dr =>
      rw [hd] at h
      dsimp only at h
      split at h
      · next hcond =>
        simp only [Option.some.injEq, Prod.mk.injEq] at h
        have e1 : ((c :: cs).takeWhile isHexUp).length
            + ((c :: cs).dropWhile isHexUp).length = (c :: cs).length := by
          rw [← List.length_append, List.takeWhile_append_dropWhile]
        have e2 : 1 ≤ ((c :: cs).takeWhile isHexUp).length := by
          cases he : (c :: cs).takeWhile isHexUp with
          | nil => exact absurd he hcond.1
          | cons _ _ => simp
        rw [hd] at e1
        simp only [List.length_cons] at e1 ⊢
        rw [← h.2]
        omega
      · split at h
        · simp at h
        · have := ih h
          simp only [List.length_cons]
          omega

theorem tryClose_length {l u rest : List Char}
    (h : tryClose l = some (u, rest)) : rest.length < l.length := by
  unfold tryClose at h
  cases hs : stripPre "](dayone".data l with
  | none => rw [hs] at h; simp at h
  | some r =>
    rw [hs] at h
    dsimp only at h
    have hr := stripPre_length hs
    revert h
    split
    · next res h2 =>
      intro h
      simp only [Option.some.injEq] at h
      subst h
      revert h2
      cases h2a : stripPre "2".data r with
      | none => intro h2; simp at h2
      | some r2 =>
        have hr2 := stripPre_length h2a
        dsimp only
        cases h2b : stripPre "://".data r2 with
        | none => intro h2; simp at h2
        | some r3 =>
          have hr3 := stripPre_length h2b
          dsimp only
          intro h2
          have := tryInner_length h2
          simp only [List.length_cons] at *
          omega
    · intro h
      cases h3a : stripPre "://".data r with
      | none => rw [h3a] at h; simp at h
      | some r3 =>
        rw [h3a] at h
        dsimp only at h
        have hr3 := stripPre_length h3a
        have := tryInner_length h
        simp only [List.length_cons] at *
        omega

theorem tryText_length {l t u rest : List Char}
    (h : tryText l = some (t, u, rest)) : rest.length < l.length := by
  induction l generalizing t u rest with
  | nil => simp [tryText] at h
  | cons c cs ih =>
    unfold tryText at h
    cases hc : tryClose (c :: cs) with
    | some p =>
      match p with
      | (u2, rest2) =>
        rw [hc] at h
        dsimp only at h
        simp only [Option.some.injEq, Prod.mk.injEq] at h
        have := tryClose_length hc
        rw [← h.2.2]
        exact this
    | none =>
      rw [hc] at h
      dsimp only at h
      split at h
      · simp at h
      · cases ht : tryText cs with
        | none => rw [ht] at h; simp at h
        | some q =>
          match q with
          | (t2, u2, rest2) =>
            rw [ht] at h
            dsimp only at h
            simp only [Option.some.injEq, Prod.mk.injEq] at h
            have := ih ht
            simp only [List.length_cons]
            rw [← h.2.2]
            omega

theorem tryLink_length {l t u rest : List Char}
    (h : tryLink l = some (t, u, rest)) : rest.length < l.length := by
  match l with
  | [] => simp [tryLink] at h
  | '[' :: r =>
    have h2 : rest.length < r.length := tryText_length h
    simp only [List.length_cons]
    omega
  | c :: r =>
    unfold tryLink at h
    revert h
    split
    · next heq =>
      intro h
      have := tryText_length h
      cases heq
      simp only [List.length_cons]
      omega
    · intro h; simp at h

/-- Scan driver for `re.sub(regex, replace_link, text)`; fuel as in
`subGo`. On a match the captured groups are passed to `replace_link` and
scanning resumes after the match. -/
def linkGo (idx : List (String × String)) : Nat → List Char → List Char
  | 0, l => l
  | fuel + 1, l =>
    match l with
    | [] => []
    | c :: cs =>
      match tryLink (c :: cs) with
      | some (t, u, rest) =>
        (replace_link idx (String.mk t) (String.mk u)).data
          ++ linkGo idx fuel rest
      | none => c :: linkGo idx fuel cs

/-- The second-pass link rewrite over a whole text. -/
def linkSubL (idx : List (String × String)) (l : List Char) : List Char :=
  linkGo idx l.length l

/-- The second-pass link rewrite on strings (applied when `--convert-links`
is enabled). -/
def convertLinks (idx : List (String × String)) (s : String) : String :=
  String.mk (linkSubL idx s.data)

theorem linkGo_nil (idx : List (String × String)) (f : Nat) :
    linkGo idx f [] = [] := by
  cases f <;> rfl

theorem linkGo_fuel (idx : List (String × String)) :
    ∀ f g l, l.length ≤ f → l.length ≤ g → linkGo idx f l = linkGo idx g l := by
  intro f
  induction f with
  | zero =>
    intro g l hf _
    have : l = [] := List.length_eq_zero.mp (Nat.le_zero.mp hf)
    subst this
    rw [linkGo_nil, linkGo_nil]
  | succ f ih =>
    intro g l hf hg
    match l with
    | [] => rw [linkGo_nil, linkGo_nil]
    | c :: cs =>
      match g with
      | 0 => simp at hg
      | g + 1 =>
        simp only [linkGo]
        cases hm : tryLink (c :: cs) with
        | some p =>
          match p with
          | (t, u, rest) =>
            dsimp only
            have hr := tryLink_length hm
            simp only [List.length_cons] at hf hg hr
            rw [ih g rest (by omega) (by omega)]
        | none =>
          dsimp only
          simp only [List.length_cons] at hf hg
          rw [ih g cs (by omega) (by omega)]

theorem linkSubL_skip {idx : List (String × String)} {c : Char}
    {cs : List Char} (h : tryLink (c :: cs) = none) :
    linkSubL idx (c :: cs) = c :: linkSubL idx cs := by
  unfold linkSubL
  simp only [List.length_cons, linkGo, h]

theorem linkSubL_found {idx : List (String × String)} {c : Char}
    {cs t u rest : List Char} (h : tryLink (c :: cs) = some (t, u, rest)) :
    linkSubL idx (c :: cs) =
      (replace_link idx (String.mk t) (String.mk u)).data ++ linkSubL idx rest := by
  have hr := tryLink_length h
  unfold linkSubL
  simp only [List.length_cons, linkGo, h]
  rw [linkGo_fuel idx cs.length rest.length rest (by simp at hr; omega) (by omega)]

/-! ## Timestamps

`dateutil.parser.isoparse` and the `pytz` timezone database are external
dependencies.  An entry therefore carries its creation timestamp already
parsed into a structured value, and `datetime.astimezone(pytz.timezone(tz))`
is modelled as a conversion oracle mapping the timezone name and the
creation timestamp to the local timestamp. -/

/-- A parsed aware timestamp: calendar fields plus a UTC offset in
minutes (microseconds are taken to be zero, as in the claims' inputs,
so `isoformat` never prints a fractional part). -/
structure PyDateTime where
  year : Nat
  month : Nat
  day : Nat
  hour : Nat
  minute : Nat
  second : Nat
  offsetMinutes : Int
deriving DecidableEq, Repr

/-- The `astimezone` oracle: timezone name and creation timestamp to
local timestamp. -/
def TzOracle : Type := String → PyDateTime → PyDateTime

/-- Decimal rendering zero-padded to `w` digits (Python `%02d`-style). -/
def padNum (w n : Nat) : String :=
  String.mk (List.replicate (w - (toString n).length) '0') ++ toString n

/-- Python `datetime.isoformat()` on an aware datetime with zero
microseconds: `YYYY-MM-DDTHH:MM:SS+HH:MM`. -/
def isoformat (d : PyDateTime) : String :=
  let off := if d.offsetMinutes < 0 then
    "-" ++ padNum 2 ((-d.offsetMinutes).toNat / 60) ++ ":"
      ++ padNum 2 ((-d.offsetMinutes).toNat % 60)
  else
    "+" ++ padNum 2 (d.offsetMinutes.toNat / 60) ++ ":"
      ++ padNum 2 (d.offsetMinutes.toNat % 60)
  padNum 4 d.year ++ "-" ++ padNum 2 d.month ++ "-" ++ padNum 2 d.day
    ++ "T" ++ padNum 2 d.hour ++ ":" ++ padNum 2 d.minute ++ ":"
    ++ padNum 2 d.second ++ off

/-- Python `strftime("%Y-%m-%d")` (used for the output file stem). -/
def fmtYMD (d : PyDateTime) : String :=
  padNum 4 d.year ++ "-" ++ padNum 2 d.month ++ "-" ++ padNum 2 d.day

/-- Python `strftime("%Y-%m")` (used for the month directory). -/
def fmtYM (d : PyDateTime) : String :=
  padNum 4 d.year ++ "-" ++ padNum 2 d.month

/-! ## Raw JSON journal entries -/

/-- The `location` block: four optional place-name components and
optional GPS coordinates.  Latitude/longitude are carried in rendered
form since no claim inspects them numerically. -/
structure JLocation where
  placeName : Option String
  localityName : Option String
  administrativeArea : Option String
  country : Option String
  latitude : Option String
  longitude : Option String
deriving DecidableEq, Repr

/-- The `weather` block; each field is optional (its JSON key may be
absent).  The numbers are modelled as integer-valued JSON numbers, for
which Python's `round(x, 1)` is the identity and `str` prints no decimal
point. -/
structure JWeather where
  conditionsDescription : Option String
  temperatureCelsius : Option Int
  windSpeedKPH : Option Int
deriving DecidableEq, Repr

/-- One raw entry of a journal JSON file.  `uuid`, `creationDate`,
`timeZone` and `starred` are required (their absence is fatal for the
journal, per the error-handling design); the rest are optional blocks. -/
structure RawEntry where
  uuid : String
  creationDate : PyDateTime
  timeZone : String
  starred : Bool
  text : Option String
  tags : Option (List String)
  location : Option JLocation
  weather : Option JWeather
  photos : Option (List JPhoto)
  pdfAttachments : Option (List JPdf)
  audios : Option (List JAudio)
  videos : Option (List JVideo)
deriving DecidableEq, Repr

/-- Per-run configuration handed to `process_journal` by `import.py`. -/
structure Config where
  tagPrefix : String
  convert_links : Bool
  yaml : Bool
  merge_entries : Bool
  entries_separator : String
  ignore_tags : List String
deriving DecidableEq, Repr

/-! ## Metadata extraction (`retrieve_metadata`, `utils.py`) -/

/-- The location components list:
`filter(None, [entry["location"].get(k) for k in (...)])` — Python's
`filter(None, ...)` drops both `None` and the empty string (falsy). -/
def locationList (loc : JLocation) : List String :=
  (([loc.placeName, loc.localityName, loc.administrativeArea,
     loc.country].filterMap id).filter (fun s => s ≠ ""))

/-- The weather string, produced only when all three keys are present:
`f"{desc}, {round(temp, 1)}°C, {round(wind, 1)} km/h wind"`.  On the
integer-valued numbers of the model, `round(x, 1)` is the identity and
`str` prints no decimal point. -/
def weatherStr (w : JWeather) : Option String :=
  match w.conditionsDescription, w.temperatureCelsius, w.windSpeedKPH with
  | some d, some t, some wd =>
    some (d ++ ", " ++ toString t ++ "°C, " ++ toString wd ++ " km/h wind")
  | _, _, _ => none

/-- The tag list assembled by `retrieve_metadata`: the entry tags not in
the ignore set, capitalized with the prefix; then a `#places/` tag built
from the reversed tail of the location components; then `#❤` for starred
entries.  `none` models the uncaught `IndexError` of `capwords`. -/
def utilsTags (e : RawEntry) (tagPrefix : String) (ignore_tags : List String)
    (location : List String) : Option (List String) := do
  let baseTags ← match e.tags with
    | some ts =>
      mapOpt (fun t => capwords (tagPrefix ++ t))
        (ts.filter (fun t => t ∉ ignore_tags))
    | none => pure []
  let placeTags ← if location.isEmpty then pure ([] : List String)
    else do
      let caps ← mapOpt capwords ((location.drop 1).reverse)
      pure ["#places/" ++ String.intercalate "/" caps]
  pure (baseTags ++ placeTags ++ (if e.starred then ["#❤"] else []))

/-- The `location`/GPS metadata entries (key `location`, value
`f"{lat}, {lon}"`), present only when both coordinates exist. -/
def gpsPart (e : RawEntry) : List (String × String) :=
  match e.location with
  | some loc =>
    match loc.latitude, loc.longitude with
    | some la, some lo => [("location", la ++ ", " ++ lo)]
    | _, _ => []
  | none => []

/-- The weather metadata entries, present only for a complete block. -/
def weatherPart (e : RawEntry) : List (String × String) :=
  match e.weather with
  | some w =>
    match weatherStr w with
    | some s => [("weather", s)]
    | none => []
  | none => []

/-- The `location` components list of the entry (empty when the block is
absent). -/
def utilsLocation (e : RawEntry) : List String :=
  match e.location with
  | some loc => locationList loc
  | none => []

/-- The function `retrieve_metadata` from `utils.py`: the ordered metadata mapping of
one entry.  `none` models the uncaught `IndexError` that `capwords`
raises on a tag with an empty word. -/
def retrieve_metadata (e : RawEntry) (local_date : PyDateTime)
    (tagPrefix : String) (ignore_tags : List String) :
    Option (List (String × String)) := do
  let location := utilsLocation e
  let tags ← utilsTags e tagPrefix ignore_tags location
  pure ([("uuid", e.uuid), ("dates", isoformat local_date),
         ("timezone", e.timeZone),
         ("places", String.intercalate ", " location)]
        ++ gpsPart e ++ weatherPart e
        ++ (if tags.isEmpty then []
            else [("tags", String.intercalate ", " tags)]))

/-! ## Per-entry rendering and the journal processor (`process_journal`) -/

/-- The text pipeline of the `try` block: sanitization, then the four
attachment-category rewrites, each applied only when its JSON key is
present. -/
def processText (e : RawEntry) (t : String) : String :=
  let l := sanitizeChars t.data
  let l := match e.photos with
    | some ps => rewritePhotos ps l
    | none => l
  let l := match e.pdfAttachments with
    | some ps => rewritePdfs ps l
    | none => l
  let l := match e.audios with
    | some a => rewriteAudios a l
    | none => l
  let l := match e.videos with
    | some v => rewriteVideos v l
    | none => l
  String.mk l

/-- The list of strings accumulated in `new_entry` for one record:
optional YAML front matter, the `up::` line, the inline metadata lines
(after popping `uuid`), a blank separator, and — when `entry["text"]`
exists — the processed body plus the hidden-uuid footer.  The YAML key
transform `name.lower().replace(' ', '_')` is the identity on the three
keys admitted into the block (`location`, `places`, `tags`). -/
def renderLines (cfg : Config) (e : RawEntry) (local_date : PyDateTime) :
    Option (List String) := do
  let metadata ← retrieve_metadata e local_date cfg.tagPrefix cfg.ignore_tags
  let yamlLines := if cfg.yaml then
      ["---\n"]
        ++ ((metadata.filter
              (fun p => p.1 = "location" ∨ p.1 = "places" ∨ p.1 = "tags")).map
            (fun p => p.1 ++ ": " ++ p.2 ++ "\n"))
        ++ ["---\n\n"]
    else []
  let meta2 := metadata.filter (fun p => p.1 ≠ "uuid")
  let metaLines := meta2.map (fun p => p.1 ++ ":: " ++ p.2 ++ "\n")
  let textPart := match e.text with
    | some t => [processText e t, "\n\n%%\nuuid:: " ++ e.uuid ++ "\n"]
    | none => []
  pure (yamlLines ++ ["up:: [[Day One MOC]]\n"] ++ metaLines ++ ["\n\n"]
        ++ textPart)

/-- An output file location inside the journal folder:
`<year>/<year-month>/<stem>.md`.  The year directory is `str(year)`
(unpadded), the month directory `strftime("%Y-%m")`, both from the
creation date; the file stem comes from the local date. -/
structure OutPath where
  year : String
  month : String
  file : String
deriving DecidableEq, Repr

/-- Python dict assignment on an association list: replace in place if
the key exists, else append. -/
def updateAssoc (l : List (String × String)) (k v : String) :
    List (String × String) :=
  if (l.map Prod.fst).contains k then
    l.map (fun p => if p.1 = k then (k, v) else p)
  else l ++ [(k, v)]

/-- The collision-suffix search: starting at `chr(97) = 'a'`, increment
until `date + chr(index)` is not an existing key.  The fuel (number of
existing keys) bounds the loop: the candidates are pairwise distinct, so
after `keys.length` failed membership tests the next candidate is free
and is returned unchecked. -/
def findFreeGo (keys : List String) (date : String) : Nat → Nat → String
  | 0, idx => date ++ String.singleton (Char.ofNat idx)
  | fuel + 1, idx =>
    let cand := date ++ String.singleton (Char.ofNat idx)
    if cand ∈ keys then findFreeGo keys date fuel (idx + 1) else cand

/-- The `while target_file.stem in entries` loop of `process_journal`. -/
def findFree (keys : List String) (date : String) : String :=
  findFreeGo keys date keys.length 97

/-- The mutable state of the first pass: the ordered `entries` dict
(filename stem to accumulated lines and target path) and the
`uuid_to_file` link index. -/
structure PJState where
  entries : List (String × (List String × OutPath))
  uuid_to_file : List (String × String)
deriving DecidableEq, Repr

/-- The state update of one first-pass iteration, after the record's
lines have been built: resolve the day-collision (merge or suffix),
insert into the ordered dict, and register the filename in the link
index.  `stem0` is the local date stem, `yearStr`/`monthStr` the
creation-date directory names. -/
def pjCore (cfg : Config) (st : PJState) (uuid stem0 yearStr monthStr : String)
    (lines : List String) : PJState :=
  let keys := st.entries.map Prod.fst
  let next : String × List String × List (String × (List String × OutPath)) :=
    if stem0 ∈ keys then
      if cfg.merge_entries then
        (stem0,
         ((lookupA st.entries stem0).map Prod.fst).getD []
           ++ ["\n\n" ++ cfg.entries_separator ++ "\n\n"] ++ lines,
         st.entries.filter (fun p => p.1 ≠ stem0))
      else
        (findFree keys stem0, lines, st.entries)
    else (stem0, lines, st.entries)
  let path : OutPath :=
    { year := yearStr, month := monthStr, file := next.1 ++ ".md" }
  { entries := next.2.2 ++ [(next.1, (next.2.1, path))],
    uuid_to_file := updateAssoc st.uuid_to_file uuid (next.1 ++ ".md") }

/-- One iteration of the first pass of `process_journal`: build the
record's lines (failing, like the Python, when `capwords` raises), then
apply the state update. -/
def pjStep (cfg : Config) (tz : TzOracle) (st : PJState) (e : RawEntry) :
    Option PJState := do
  let local_date := tz e.timeZone e.creationDate
  let lines ← renderLines cfg e local_date
  pure (pjCore cfg st e.uuid (fmtYMD local_date)
    (toString e.creationDate.year) (fmtYM e.creationDate) lines)

/-- The whole first pass over the `entries` array, in source order. -/
def processEntries (cfg : Config) (tz : TzOracle) (es : List RawEntry) :
    Option PJState :=
  es.foldlM (pjStep cfg tz) { entries := [], uuid_to_file := [] }

/-- The second pass: join each entry's lines, apply the link rewrite when
`--convert-links` is enabled, and emit (path, content) pairs in dict
order. -/
def writeOut (cfg : Config) (st : PJState) : List (OutPath × String) :=
  st.entries.map (fun p =>
    let text := String.join p.2.1
    (p.2.2, if cfg.convert_links then convertLinks st.uuid_to_file text
            else text))

/-- The function `process_journal` from `utils.py`, as the pure function from the
parsed `entries` array to the written files and the link index.  `none`
models an uncaught exception aborting the journal. -/
def process_journal (cfg : Config) (tz : TzOracle) (es : List RawEntry) :
    Option (List (OutPath × String) × List (String × String)) := do
  let st ← processEntries cfg tz es
  pure (writeOut cfg st, st.uuid_to_file)

/-! ## Folder-level processing (`convert`, `import.py`)

`convert` iterates over every `*.json` file of the input folder and calls
`process_journal` on it.  `process_journal` deletes any pre-existing
output folder for the journal and recreates it, so after a run the
folder's contents are exactly the files written this run.  Neither
function renames, moves or deletes any source `*.json` file (the only
renames in the source are of attachment binaries in the sibling
`photos/`, `pdfs/`, `audios/`, `videos/` directories), which the state
transformer below reflects by leaving the `sources` component untouched. -/

/-- One source journal file: its filename stem and its parsed `entries`
array. -/
structure Journal where
  stem : String
  entries : List RawEntry
deriving DecidableEq, Repr

/-- The observable folder state: the source `*.json` journal files, and
for each output subfolder name the files it contains. -/
structure FolderState where
  sources : List Journal
  outputs : String → List (OutPath × String)

/-- The files `process_journal` writes for one journal. -/
def journalFiles (cfg : Config) (tz : TzOracle) (j : Journal) :
    Option (List (OutPath × String)) :=
  (process_journal cfg tz j.entries).map Prod.fst

/-- The output subfolder of a journal: `journal.stem.lower()`. -/
def journalFolderName (j : Journal) : String :=
  String.mk (j.stem.data.map lowerChar)

/-- The effect of one `process_journal` call on the folder: the output
subfolder `journal.stem.lower()` is cleared and repopulated; the source
files are untouched. -/
def processJournalFolder (cfg : Config) (tz : TzOracle) (st : FolderState)
    (j : Journal) : Option FolderState := do
  let files ← journalFiles cfg tz j
  pure { sources := st.sources,
         outputs := Function.update st.outputs (journalFolderName j) files }

/-- The command `convert` from `import.py`: process every journal file in the folder,
in glob order. -/
def convert (cfg : Config) (tz : TzOracle) (st : FolderState) :
    Option FolderState :=
  st.sources.foldlM (processJournalFolder cfg tz) st

/-! ## The `Entry` class (`entry.py`)

`entry.py` defines an `Entry` class whose `__retreive_metadata` populates
a metadata dict with `created`, `place`, `lat`/`lon`, `weather`,
`journal`, `favorite`, `url` and `tags`; nothing in the repository
instantiates it (the running pipeline is `import.py` → `utils.py`), but
several claims cite it.  Metadata values there are not all strings, so
they are modelled by a small value type with Python's `str` rendering. -/

/-- A Python value stored in the `Entry.metadata` dict: a string, a bool
(`str` renders `True`/`False`), `None` (`str` renders `None`), or a
number carried in rendered form. -/
inductive MValue where
  | vStr (s : String)
  | vBool (b : Bool)
  | vNone
  | vNum (s : String)
deriving DecidableEq, Repr

/-- Python `str()` of a metadata value, as interpolated by an f-string. -/
def pyStr : MValue → String
  | .vStr s => s
  | .vBool true => "True"
  | .vBool false => "False"
  | .vNone => "None"
  | .vNum s => s

/-- The `**kwargs` configuration bag accepted by
`Entry.from_json_entry` / `__retreive_metadata`; `kwargs.get(k)` yields
`None` when absent, modelled by `Option`. -/
structure Kwargs where
  journal_name : Option String
  ignore_tags : Option (List String)
  status_tags : Option (List String)
  tagPrefix : Option String
  statusPrefix : Option String
  extra_tags : Option (List String)
  ignore_fields : Option (List String)
deriving DecidableEq, Repr

/-- An all-absent kwargs bag. -/
def Kwargs.empty : Kwargs :=
  ⟨none, none, none, none, none, none, none⟩

/-- Python's rendering of an `Option`al string interpolated into an
f-string: `None` prints as `"None"`. -/
def pyOptStr : Option String → String
  | some s => s
  | none => "None"

/-- Remove the keys of `ignore_fields` from the metadata dict
(`self.metadata.pop(key, None)` in a loop). -/
def popFields (md : List (String × MValue)) (ks : List String) :
    List (String × MValue) :=
  ks.foldl (fun m k => m.filter (fun p => p.1 ≠ k)) md

/-- The tag list assembled by `Entry.__retreive_metadata`: the plain
tags (entry tags minus ignore minus status, prefixed with
`tagPrefix + "/"`), then the status tags (entry tags intersected with
status, prefixed with `statusPrefix + "/"`), then the extra tags
verbatim.  Python iterates the sets in unspecified hash order; the model
fixes first-occurrence order, which no claim observes.  A `kwargs.get`
miss on a prefix interpolates as the string `"None"`. -/
def entryPyTags (e : RawEntry) (kw : Kwargs) : Option (List String) := do
  let ignore := kw.ignore_tags.getD []
  let status := kw.status_tags.getD []
  let plainTags ← match e.tags with
    | some ts =>
      mapOpt (fun t => capwords (pyOptStr kw.tagPrefix ++ "/" ++ t))
        ((ts.dedup.filter (fun t => t ∉ ignore)).filter
          (fun t => t ∉ status))
    | none => pure []
  let statusTags ← match e.tags with
    | some ts =>
      mapOpt (fun t => capwords (pyOptStr kw.statusPrefix ++ "/" ++ t))
        (ts.dedup.filter (fun t => t ∈ status))
    | none => pure []
  pure (plainTags ++ statusTags ++ (kw.extra_tags.getD []))

/-- The method `Entry.__retreive_metadata` from `entry.py`: the ordered metadata
dict of one entry, before the `ignore_fields` removal is applied at the
end.  The weather format string of `entry.py` contains the mojibake
`Â°C` (bytes `C3 82 C2 B0` in the source), reproduced verbatim. -/
def entryPyMetadataRaw (tz : TzOracle) (e : RawEntry) (kw : Kwargs)
    (tags : List String) : List (String × MValue) :=
  [("created", MValue.vStr (isoformat (tz e.timeZone e.creationDate)))]
  ++ (match e.location with
    | some loc =>
      [("place", MValue.vStr (String.intercalate ", "
          ([loc.placeName, loc.localityName, loc.administrativeArea,
            loc.country].filterMap id))),
       ("lat", match loc.latitude with
               | some la => MValue.vNum la
               | none => MValue.vNone),
       ("lon", match loc.longitude with
               | some lo => MValue.vNum lo
               | none => MValue.vNone)]
    | none => [])
  ++ (match e.weather with
    | some w =>
      match w.conditionsDescription, w.temperatureCelsius, w.windSpeedKPH with
      | some d, some t, some wd =>
        [("weather", MValue.vStr (d ++ ", " ++ toString t ++ "Â°C, "
            ++ toString wd ++ " km/h wind"))]
      | _, _, _ => []
    | none => [])
  ++ (match kw.journal_name with
    | some jn => [("journal", MValue.vStr jn)]
    | none => [])
  ++ [("favorite", MValue.vBool e.starred)]
  ++ [("url", MValue.vStr ("[DayOne](dayone://view?entryId="
        ++ e.uuid ++ ")"))]
  ++ (if tags.isEmpty then []
      else [("tags", MValue.vStr (String.intercalate ", " tags))])

/-- The method `Entry.__retreive_metadata` including the tag computation (whose
`capwords` failure, modelled as `none`, aborts the record) and the final
`ignore_fields` removal. -/
def entryPyMetadata (tz : TzOracle) (e : RawEntry) (kw : Kwargs) :
    Option (List (String × MValue)) := do
  let tags ← entryPyTags e kw
  pure (popFields (entryPyMetadataRaw tz e kw tags) (kw.ignore_fields.getD []))

/-! ## Properties of the ASCII case maps and of `capwords` -/

theorem charLe_iff (a b : Char) : a ≤ b ↔ a.toNat ≤ b.toNat := Iff.rfl

theorem toNat_ofNat_valid (n : Nat) (h : n < 55296) :
    (Char.ofNat n).toNat = n := by
  unfold Char.ofNat
  split
  · rfl
  · next hh => exact absurd (Or.inl h) hh

theorem upperChar_toNat_of_lower {c : Char} (h : 'a' ≤ c ∧ c ≤ 'z') :
    (upperChar c).toNat = c.toNat - 32 := by
  unfold upperChar
  rw [if_pos h]
  have h1 : c.toNat ≤ 122 := (charLe_iff c 'z').mp h.2
  exact toNat_ofNat_valid _ (by omega)

theorem lowerChar_toNat_of_upper {c : Char} (h : 'A' ≤ c ∧ c ≤ 'Z') :
    (lowerChar c).toNat = c.toNat + 32 := by
  unfold lowerChar
  rw [if_pos h]
  have h1 : c.toNat ≤ 90 := (charLe_iff c 'Z').mp h.2
  exact toNat_ofNat_valid _ (by omega)

theorem upperChar_idem (c : Char) : upperChar (upperChar c) = upperChar c := by
  by_cases h : 'a' ≤ c ∧ c ≤ 'z'
  · have ht := upperChar_toNat_of_lower h
    have h1 : 97 ≤ c.toNat := (charLe_iff 'a' c).mp h.1
    have h2 : c.toNat ≤ 122 := (charLe_iff c 'z').mp h.2
    conv_lhs => rw [upperChar]
    rw [if_neg]
    intro hcon
    have h3 := (charLe_iff 'a' (upperChar c)).mp hcon.1
    rw [ht] at h3
    have h4 : ('a' : Char).toNat = 97 := rfl
    omega
  · have he : upperChar c = c := by rw [upperChar, if_neg h]
    rw [he, he]

theorem lowerChar_idem (c : Char) : lowerChar (lowerChar c) = lowerChar c := by
  by_cases h : 'A' ≤ c ∧ c ≤ 'Z'
  · have ht := lowerChar_toNat_of_upper h
    have h1 : 65 ≤ c.toNat := (charLe_iff 'A' c).mp h.1
    have h2 : c.toNat ≤ 90 := (charLe_iff c 'Z').mp h.2
    conv_lhs => rw [lowerChar]
    rw [if_neg]
    intro hcon
    have h3 := (charLe_iff (lowerChar c) 'Z').mp hcon.2
    rw [ht] at h3
    have h4 : ('Z' : Char).toNat = 90 := rfl
    omega
  · have he : lowerChar c = c := by rw [lowerChar, if_neg h]
    rw [he, he]

theorem upperChar_ne_space {c : Char} (h : c ≠ ' ') : upperChar c ≠ ' ' := by
  by_cases hc : 'a' ≤ c ∧ c ≤ 'z'
  · have ht := upperChar_toNat_of_lower hc
    have h1 : 97 ≤ c.toNat := (charLe_iff 'a' c).mp hc.1
    intro hcon
    have h2 : (upperChar c).toNat = 32 := by rw [hcon]; rfl
    omega
  · rw [upperChar, if_neg hc]
    exact h

theorem lowerChar_ne_space {c : Char} (h : c ≠ ' ') : lowerChar c ≠ ' ' := by
  by_cases hc : 'A' ≤ c ∧ c ≤ 'Z'
  · have ht := lowerChar_toNat_of_upper hc
    have h1 : 65 ≤ c.toNat := (charLe_iff 'A' c).mp hc.1
    intro hcon
    have h2 : (lowerChar c).toNat = 32 := by rw [hcon]; rfl
    omega
  · rw [lowerChar, if_neg hc]
    exact h

theorem splitSpaces_no_space {l : List Char} (h : ∀ c ∈ l, c ≠ ' ') :
    splitSpaces l = [l] := by
  induction l with
  | nil => rfl
  | cons c cs ih =>
    have hc : c ≠ ' ' := h c (by simp)
    have ihs := ih (fun x hx => h x (by simp [hx]))
    rw [splitSpaces, ihs]
    simp [hc]

theorem mapOpt_capword_none (ws : List (List Char)) :
    mapOpt capword ws = none ↔ [] ∈ ws := by
  induction ws with
  | nil => simp [mapOpt]
  | cons w ws ih =>
    cases w with
    | nil => simp [mapOpt, capword]
    | cons c cs =>
      simp only [mapOpt, capword, Option.bind_eq_bind, Option.some_bind,
        List.mem_cons]
      constructor
      · intro h
        right
        apply ih.mp
        cases hm : mapOpt capword ws with
        | none => rfl
        | some r => rw [hm] at h; simp at h
      · intro h
        have h2 : [] ∈ ws := by
          rcases h with h1 | h2
          · exact absurd h1.symm (by simp)
          · exact h2
        rw [ih.mpr h2]
        rfl

/-! ## Claim C9 -/

/-- C9: `capwords` is partial.  Embedded totally, it returns `none`
exactly on the inputs whose split on a single space contains an empty
word (any two consecutive spaces, a leading or trailing space, or the
empty string), and returns a string on all other inputs. -/
theorem capwords_none_iff (s : String) :
    capwords s = none ↔ [] ∈ splitSpaces s.data := by
  rw [← mapOpt_capword_none (splitSpaces s.data)]
  unfold capwords capwordsL
  cases hm : mapOpt capword (splitSpaces s.data) with
  | none => exact ⟨fun _ => rfl, fun _ => rfl⟩
  | some ws =>
    exact ⟨fun h => Option.noConfusion h, fun h => Option.noConfusion h⟩

/-! ## Claim C5 -/

/-- C5 counterexample: the tag-capitalization function is not
idempotent.  On `"hello world"` it yields `"HelloWorld"`, but run again
it lowercases the inner capital: `"Helloworld"`. -/
theorem capwords_not_idempotent :
    capwords "hello world" = some "HelloWorld" ∧
    capwords "HelloWorld" = some "Helloworld" ∧
    ("Helloworld" : String) ≠ "HelloWorld" :=
  ⟨by decide, by decide, by decide⟩

/-- C5 amended: `capwords` is not idempotent in general (see the
counterexample), but it is idempotent on every ASCII input without a
space character (on which it is defined): the single word keeps its
uppercased head and its lowercased tail under re-application.  The ASCII
bound is part of the claim because `upperChar`/`lowerChar` model Python's
`str.upper`/`str.lower` exactly on code points below 128 only; outside
ASCII Python has multi-character case mappings the model omits. -/
theorem capwords_idem_ascii (s t : String)
    (_ha : ∀ c ∈ s.data, c.toNat < 128)
    (hs : ∀ c ∈ s.data, c ≠ ' ') (h : capwords s = some t) :
    capwords t = some t := by
  unfold capwords capwordsL at h ⊢
  rw [splitSpaces_no_space hs] at h
  cases hd : s.data with
  | nil =>
    rw [hd] at h
    exact absurd h (by simp [mapOpt, capword])
  | cons c cs =>
    rw [hd] at h
    have h2 : some (String.mk ((upperChar c :: cs.map lowerChar) ++ [])) = some t := h
    rw [List.append_nil] at h2
    have ht : t = String.mk (upperChar c :: cs.map lowerChar) := (Option.some.inj h2).symm
    have htd : t.data = upperChar c :: cs.map lowerChar := by rw [ht]
    have hts : ∀ x ∈ t.data, x ≠ ' ' := by
      rw [htd]
      intro x hx
      rcases List.mem_cons.mp hx with h1 | h2
      · subst h1
        exact upperChar_ne_space (hs c (by rw [hd]; simp))
      · rcases List.mem_map.mp h2 with ⟨y, hy, hxy⟩
        subst hxy
        exact lowerChar_ne_space (hs y (by rw [hd]; simp [hy]))
    rw [splitSpaces_no_space hts, htd]
    show some (String.mk ((upperChar (upperChar c)
        :: (cs.map lowerChar).map lowerChar) ++ [])) = some t
    have hmm : cs.map (fun x => lowerChar (lowerChar x)) = cs.map lowerChar :=
      List.map_congr_left (fun x _ => lowerChar_idem x)
    rw [List.append_nil, upperChar_idem, List.map_map]
    show some (String.mk (upperChar c :: cs.map (fun x => lowerChar (lowerChar x)))) = some t
    rw [hmm, ht]

/-- C5 witness: the amended idempotence applied at the space-free ASCII
input `"hello"`, whose capitalization is `"Hello"`. -/
theorem capwords_idem_witness : capwords "Hello" = some "Hello" :=
  capwords_idem_ascii "hello" "Hello" (by decide) (by decide) (by decide)

/-! ## Lookup lemmas for association lists -/

theorem lookupA_append {α : Type} (l1 l2 : List (String × α)) (k : String) :
    lookupA (l1 ++ l2) k =
      match lookupA l1 k with
      | some v => some v
      | none => lookupA l2 k := by
  induction l1 with
  | nil => rfl
  | cons p r ih =>
    match p with
    | (k1, v1) =>
      simp only [List.cons_append, lookupA]
      split
      · rfl
      · exact ih

theorem lookupA_none {α : Type} {l : List (String × α)} {k : String}
    (h : ∀ p ∈ l, p.1 ≠ k) : lookupA l k = none := by
  induction l with
  | nil => rfl
  | cons p r ih =>
    match p with
    | (k1, v1) =>
      rw [lookupA, if_neg (h (k1, v1) (by simp))]
      exact ih (fun q hq => h q (by simp [hq]))

theorem lookupA_filter_ne {α : Type} (l : List (String × α)) (k k2 : String)
    (h : k2 ≠ k) :
    lookupA (l.filter (fun p => p.1 ≠ k2)) k = lookupA l k := by
  induction l with
  | nil => rfl
  | cons p r ih =>
    match p with
    | (k1, v1) =>
      by_cases h1 : k1 = k2
      · subst h1
        rw [List.filter_cons_of_neg (by simp), ih, lookupA, if_neg h]
      · rw [List.filter_cons_of_pos (by simpa using h1), lookupA, lookupA]
        split
        · rfl
        · exact ih

theorem popFields_lookup {md : List (String × MValue)} {ks : List String}
    {k : String} (h : k ∉ ks) :
    lookupA (popFields md ks) k = lookupA md k := by
  induction ks generalizing md with
  | nil => rfl
  | cons k2 kr ih =>
    rw [popFields, List.foldl_cons]
    have h2 : k ∉ kr := fun hc => h (by simp [hc])
    have h3 : k2 ≠ k := fun hc => h (by simp [hc])
    rw [show List.foldl (fun m k => m.filter (fun p => p.1 ≠ k))
        (md.filter (fun p => p.1 ≠ k2)) kr
        = popFields (md.filter (fun p => p.1 ≠ k2)) kr from rfl]
    rw [ih h2, lookupA_filter_ne md k k2 h3]

/-! ## Claim C8 -/

theorem retrieve_metadata_weather_lookup {e : RawEntry}
    {local_date : PyDateTime} {tp : String} {ig : List String}
    {md : List (String × String)}
    (h : retrieve_metadata e local_date tp ig = some md) :
    lookupA md "weather" = e.weather.bind weatherStr := by
  unfold retrieve_metadata at h
  dsimp only at h
  cases hu : utilsTags e tp ig (utilsLocation e) with
  | none => rw [hu] at h; exact Option.noConfusion h
  | some tags =>
    rw [hu] at h
    have h2 : some ([("uuid", e.uuid), ("dates", isoformat local_date),
         ("timezone", e.timeZone),
         ("places", String.intercalate ", " (utilsLocation e))]
        ++ gpsPart e ++ weatherPart e
        ++ (if tags.isEmpty then []
            else [("tags", String.intercalate ", " tags)])) = some md := h
    have hmd := Option.some.inj h2
    subst hmd
    have hA : lookupA [("uuid", e.uuid), ("dates", isoformat local_date),
        ("timezone", e.timeZone),
        ("places", String.intercalate ", " (utilsLocation e))] "weather"
        = none := by
      simp [lookupA]
    have hg : lookupA (gpsPart e) "weather" = none := by
      unfold gpsPart
      cases e.location with
      | none => rfl
      | some loc =>
        obtain ⟨pn, ln, aa, co, lat, lon⟩ := loc
        cases lat <;> cases lon <;> simp [lookupA]
    have ht : lookupA (if tags.isEmpty then []
        else [("tags", String.intercalate ", " tags)]) "weather" = none := by
      split
      · rfl
      · simp [lookupA]
    have hw : lookupA (weatherPart e) "weather" = e.weather.bind weatherStr := by
      unfold weatherPart
      cases hwe : e.weather with
      | none => rfl
      | some w =>
        cases hws : weatherStr w with
        | none => simp [hws, lookupA]
        | some s => simp [hws, lookupA]
    rw [List.append_assoc, List.append_assoc, lookupA_append, hA]
    dsimp only
    rw [lookupA_append, hg]
    dsimp only
    rw [lookupA_append, hw]
    cases hb : e.weather.bind weatherStr with
    | none => exact ht
    | some s => rfl

/-- C8 amended: for every entry (numbers modelled as integer-valued JSON
numbers), the metadata's `weather` key is present exactly when the
weather block carries all three of description, temperature and wind
speed, and then holds
`"{desc}, {str(round(temp,1))}°C, {str(round(wind,1))} km/h wind"` —
which for integer-valued inputs prints no decimal point; with the block
absent or any field missing, no `weather` key appears at all. -/
theorem weather_rendering {e : RawEntry} {local_date : PyDateTime}
    {tp : String} {ig : List String} {md : List (String × String)}
    (h : retrieve_metadata e local_date tp ig = some md) :
    (∀ w d t wd, e.weather = some w → w.conditionsDescription = some d →
      w.temperatureCelsius = some t → w.windSpeedKPH = some wd →
      lookupA md "weather" = some (d ++ ", " ++ toString t ++ "°C, "
        ++ toString wd ++ " km/h wind"))
    ∧ (e.weather = none → lookupA md "weather" = none)
    ∧ (∀ w, e.weather = some w →
        w.conditionsDescription = none ∨ w.temperatureCelsius = none ∨
          w.windSpeedKPH = none →
        lookupA md "weather" = none) := by
  have hc := retrieve_metadata_weather_lookup h
  refine ⟨?_, ?_, ?_⟩
  · intro w d t wd hw hd htc hwd
    rw [hc, hw]
    simp [weatherStr, hd, htc, hwd]
  · intro hw
    rw [hc, hw]
    rfl
  · intro w hw hor
    rw [hc, hw]
    rcases hor with h1 | h1 | h1 <;> simp [weatherStr, h1]

/-- An identity timezone oracle: the local timestamp equals the parsed
creation timestamp (as for an entry recorded in UTC with a UTC wall
clock). -/
def tzId : TzOracle := fun _ d => d

/-- A concrete entry with a complete, integer-valued weather block. -/
def wE8 : RawEntry :=
  { uuid := "E8", creationDate := ⟨2023, 5, 1, 7, 0, 0, 0⟩, timeZone := "UTC",
    starred := false, text := none, tags := none, location := none,
    weather := some ⟨some "Sunny", some 23, some 5⟩, photos := none,
    pdfAttachments := none, audios := none, videos := none }

/-- The local date used with `wE8`. -/
def d8 : PyDateTime := ⟨2023, 5, 1, 7, 0, 0, 0⟩

/-- The metadata `retrieve_metadata` produces for `wE8`. -/
def md8 : List (String × String) :=
  [("uuid", "E8"), ("dates", "2023-05-01T07:00:00+00:00"),
   ("timezone", "UTC"), ("places", ""),
   ("weather", "Sunny, 23°C, 5 km/h wind")]

/-- C8 counterexample: with the integer-valued JSON numbers `23` and `5`
(`round(23, 1) == 23`, and `str` prints `"23"`), the rendered weather
string is `"Sunny, 23°C, 5 km/h wind"` — not the one-decimal
`"Sunny, 23.0°C, 5.0 km/h wind"` that the claimed `{:.1f}`-style format
prescribes. -/
theorem weather_int_no_decimal :
    retrieve_metadata wE8 d8 "#on/" [] = some md8
    ∧ lookupA md8 "weather" = some "Sunny, 23°C, 5 km/h wind"
    ∧ ("Sunny, 23°C, 5 km/h wind" : String) ≠ "Sunny, 23.0°C, 5.0 km/h wind" :=
  ⟨by decide, by decide, by decide⟩

/-- C8 witness: the amended weather rendering applied at `wE8`. -/
theorem weather_rendering_witness :
    lookupA md8 "weather" = some ("Sunny, " ++ toString (23 : Int) ++ "°C, "
      ++ toString (5 : Int) ++ " km/h wind") :=
  (weather_rendering
      (show retrieve_metadata wE8 d8 "#on/" [] = some md8 by decide)).1
    ⟨some "Sunny", some 23, some 5⟩ "Sunny" 23 5 rfl rfl rfl rfl

/-! ## Claim C4 -/

theorem lookupA_append_none {α : Type} {l1 : List (String × α)}
    (l2 : List (String × α)) {k : String} (h : lookupA l1 k = none) :
    lookupA (l1 ++ l2) k = lookupA l2 k := by
  rw [lookupA_append, h]

/-- C4 amended: in the `Entry` class of `entry.py`, the `favorite`
metadata field is always present — whatever the entry and configuration,
as long as `favorite` is not explicitly discarded through
`ignore_fields` (applied last, it can strip any field) — holding the
Python boolean of the `starred` flag, and an f-string renders that value
as the literal token `True` or `False` (capitalized), not `true`/`false`.
The `utils.py` pipeline that actually runs produces no `favorite` field
at all (it marks starred entries with a `#❤` tag instead). -/
theorem favorite_always_bool {tz : TzOracle} {e : RawEntry} {kw : Kwargs}
    {md : List (String × MValue)}
    (h : entryPyMetadata tz e kw = some md)
    (hig : "favorite" ∉ kw.ignore_fields.getD []) :
    lookupA md "favorite" = some (MValue.vBool e.starred)
    ∧ pyStr (MValue.vBool e.starred)
        = (if e.starred then "True" else "False") := by
  constructor
  · unfold entryPyMetadata at h
    cases htg : entryPyTags e kw with
    | none => rw [htg] at h; exact Option.noConfusion h
    | some tags =>
      rw [htg] at h
      have h2 : some (popFields (entryPyMetadataRaw tz e kw tags)
          (kw.ignore_fields.getD [])) = some md := h
      have hmd := Option.some.inj h2
      subst hmd
      rw [popFields_lookup hig]
      unfold entryPyMetadataRaw
      simp only [List.append_assoc]
      rw [lookupA_append_none _ (by simp [lookupA])]
      rw [lookupA_append_none _ ?hL]
      case hL =>
        cases e.location with
        | none => rfl
        | some loc => simp [lookupA]
      rw [lookupA_append_none _ ?hW]
      case hW =>
        cases e.weather with
        | none => rfl
        | some w =>
          obtain ⟨wc, wt, ww⟩ := w
          cases wc <;> cases wt <;> cases ww <;> simp [lookupA]
      rw [lookupA_append_none _ ?hJ]
      case hJ =>
        cases kw.journal_name with
        | none => rfl
        | some jn => simp [lookupA]
      simp [lookupA]
  · cases e.starred <;> rfl

/-- A concrete starred entry with no optional blocks. -/
def eStar : RawEntry :=
  { uuid := "F1", creationDate := ⟨2023, 5, 1, 7, 0, 0, 0⟩, timeZone := "UTC",
    starred := true, text := none, tags := none, location := none,
    weather := none, photos := none, pdfAttachments := none, audios := none,
    videos := none }

/-- The `Entry` metadata produced for `eStar` with an empty kwargs bag. -/
def mdStar : List (String × MValue) :=
  [("created", MValue.vStr "2023-05-01T07:00:00+00:00"),
   ("favorite", MValue.vBool true),
   ("url", MValue.vStr "[DayOne](dayone://view?entryId=F1)")]

/-- C4 counterexample: for a starred entry the stored `favorite` value is
the Python boolean `True`, and its rendered token is `"True"`, not the
claimed literal `"true"`.  (Moreover `retrieve_metadata` of `utils.py`,
the pipeline that actually runs, emits no `favorite` key at all.) -/
theorem favorite_not_lowercase :
    entryPyMetadata tzId eStar Kwargs.empty = some mdStar
    ∧ lookupA mdStar "favorite" = some (MValue.vBool true)
    ∧ pyStr (MValue.vBool true) = "True"
    ∧ ("True" : String) ≠ "true"
    ∧ (retrieve_metadata eStar d8 "#on/" []).map
        (fun m => lookupA m "favorite") = some none :=
  ⟨by decide, by decide, by decide, by decide, by decide⟩

/-- C4 witness: the amended favorite property applied at `eStar` with an
empty kwargs bag. -/
theorem favorite_always_bool_witness :
    lookupA mdStar "favorite" = some (MValue.vBool true)
    ∧ pyStr (MValue.vBool true) = "True" := by
  have hb := favorite_always_bool
    (show entryPyMetadata tzId eStar Kwargs.empty = some mdStar by decide)
    (show "favorite" ∉ (Kwargs.empty.ignore_fields).getD [] by decide)
  exact ⟨hb.1, hb.2⟩

/-! ## Claim C7 -/

theorem tryLink_not_bracket {c : Char} {r : List Char} (h : c ≠ '[') :
    tryLink (c :: r) = none := by
  unfold tryLink
  split
  · next heq => rw [List.cons.injEq] at heq; exact absurd heq.1 h
  · rfl

theorem tryClose_not_rbracket {c : Char} {r : List Char} (h : c ≠ ']') :
    tryClose (c :: r) = none := by
  unfold tryClose
  have hs : stripPre "](dayone".data (c :: r) = none := by
    show (if ']' = c then stripPre "(dayone".data r else none) = none
    rw [if_neg (fun hc => h hc.symm)]
  rw [hs]

theorem linkSubL_inert {idx : List (String × String)} {s : List Char}
    (t : List Char) (hs : ∀ c ∈ s, c ≠ '[') :
    linkSubL idx (s ++ t) = s ++ linkSubL idx t := by
  induction s with
  | nil => rfl
  | cons c cr ih =>
    have hc : c ≠ '[' := hs c (by simp)
    rw [List.cons_append, linkSubL_skip (tryLink_not_bracket hc),
      ih (fun x hx => hs x (by simp [hx]))]
    rfl

theorem tryInner_skip {c : Char} {cs : List Char} (h1 : isHexUp c = false)
    (h2 : c ≠ '\n') : tryInner (c :: cs) = tryInner cs := by
  have hdw : (c :: cs).dropWhile isHexUp = c :: cs := by
    rw [List.dropWhile_cons, h1]
    rfl
  have htw : (c :: cs).takeWhile isHexUp = [] := by
    rw [List.takeWhile_cons, h1]
    rfl
  show (match (c :: cs).dropWhile isHexUp with
    | d :: rest =>
      if (c :: cs).takeWhile isHexUp ≠ [] ∧ d = ')' then
        some ((c :: cs).takeWhile isHexUp, rest)
      else if c = '\n' then none else tryInner cs
    | [] => if c = '\n' then none else tryInner cs) = tryInner cs
  rw [hdw, htw]
  dsimp only
  rw [if_neg (by simp), if_neg h2]

theorem tryInner_skip_all {s : List Char}
    (hs : ∀ c ∈ s, isHexUp c = false ∧ c ≠ '\n') (l : List Char) :
    tryInner (s ++ l) = tryInner l := by
  induction s with
  | nil => rfl
  | cons c cr ih =>
    have hc := hs c (by simp)
    rw [List.cons_append, tryInner_skip hc.1 hc.2,
      ih (fun x hx => hs x (by simp [hx]))]

theorem takeWhile_all_append (p : Char → Bool) {u : List Char} (x : Char)
    (t : List Char) (hu : ∀ c ∈ u, p c) (hx : p x = false) :
    (u ++ x :: t).takeWhile p = u ∧ (u ++ x :: t).dropWhile p = x :: t := by
  induction u with
  | nil => simp [List.takeWhile_cons, List.dropWhile_cons, hx]
  | cons c cr ih =>
    have hc : p c := hu c (by simp)
    have ihs := ih (fun y hy => hu y (by simp [hy]))
    simp only [List.cons_append, List.takeWhile_cons, List.dropWhile_cons, hc,
      if_true]
    exact ⟨by rw [ihs.1], by rw [ihs.2]⟩

theorem tryInner_capture (u post : List Char) (hu1 : u ≠ [])
    (hu2 : ∀ c ∈ u, isHexUp c) :
    tryInner (u ++ ')' :: post) = some (u, post) := by
  have hw := takeWhile_all_append isHexUp ')' post hu2 (by decide)
  cases u with
  | nil => exact absurd rfl hu1
  | cons a as =>
    show (match ((a :: as) ++ ')' :: post).dropWhile isHexUp with
      | d :: rest =>
        if ((a :: as) ++ ')' :: post).takeWhile isHexUp ≠ [] ∧ d = ')' then
          some (((a :: as) ++ ')' :: post).takeWhile isHexUp, rest)
        else if a = '\n' then none else tryInner (as ++ ')' :: post)
      | [] => if a = '\n' then none else tryInner (as ++ ')' :: post))
      = some (a :: as, post)
    rw [hw.1, hw.2]
    dsimp only
    rw [if_pos ⟨by simp, rfl⟩]

theorem tryClose_capture (u post : List Char) (hu1 : u ≠ [])
    (hu2 : ∀ c ∈ u, isHexUp c) :
    tryClose ("](dayone://view?entryId=".data ++ u ++ ')' :: post)
      = some (u, post) := by
  show tryClose ("](dayone".data
      ++ ("://view?entryId=".data ++ u ++ ')' :: post)) = some (u, post)
  unfold tryClose
  rw [stripPre_append]
  dsimp only
  have h2 : stripPre "2".data
      ("://view?entryId=".data ++ u ++ ')' :: post) = none := rfl
  rw [h2]
  dsimp only
  show (match stripPre "://".data
      ("://".data ++ ("view?entryId=".data ++ u ++ ')' :: post)) with
    | some r3 => tryInner r3
    | none => none) = some (u, post)
  rw [stripPre_append]
  dsimp only
  show tryInner ("view?entryId=".data ++ u ++ ')' :: post) = some (u, post)
  exact (tryInner_skip_all (show ∀ c ∈ "view?entryId=".data,
      isHexUp c = false ∧ c ≠ '\n' by decide) (u ++ ')' :: post)).trans
    (tryInner_capture u post hu1 hu2)

theorem tryText_through {txt : List Char} (l : List Char)
    {u rest : List Char} (htxt : ∀ c ∈ txt, c ≠ ']' ∧ c ≠ '\n')
    (hl : tryClose l = some (u, rest)) :
    tryText (txt ++ l) = some (txt, u, rest) := by
  induction txt with
  | nil =>
    cases l with
    | nil => exact absurd hl (by intro hc; exact Option.noConfusion hc)
    | cons x xs =>
      show tryText (x :: xs) = some ([], u, rest)
      unfold tryText
      rw [hl]
  | cons c cr ih =>
    have hc := htxt c (by simp)
    show tryText (c :: (cr ++ l)) = some (c :: cr, u, rest)
    unfold tryText
    rw [tryClose_not_rbracket hc.1]
    dsimp only
    rw [if_neg hc.2, ih (fun x hx => htxt x (by simp [hx])) ]

/-- C7: the second-pass link rewrite.  Wherever the text contains a
source-system entry link `[text](dayone://view?entryId=UUID)` (the scan
to its left containing no `[`, the link text no `]` or newline, the UUID
a nonempty uppercase-hex run), the whole match is replaced by
`replace_link`'s result and scanning continues after it: a UUID present
in the link index (which maps each UUID to the entry's assigned output
filename) yields the same-vault link `[[<filename>|<text>]]`, an absent
UUID yields the explicit `^[Linked entry with UUID `…` not found]`
marker — in both cases a total replacement, never an abort and never a
silent drop. -/
theorem link_rewrite_cases (idx : List (String × String))
    (pre txt u post : List Char) (hpre : ∀ c ∈ pre, c ≠ '[')
    (htxt : ∀ c ∈ txt, c ≠ ']' ∧ c ≠ '\n') (hu1 : u ≠ [])
    (hu2 : ∀ c ∈ u, isHexUp c) :
    linkSubL idx (pre ++ ('[' :: (txt ++ ("](dayone://view?entryId=".data
        ++ (u ++ (')' :: post))))))
      = pre ++ ((replace_link idx (String.mk txt) (String.mk u)).data
          ++ linkSubL idx post)
    ∧ (∀ f, lookupA idx (String.mk u) = some f →
        replace_link idx (String.mk txt) (String.mk u)
          = "[[" ++ f ++ "|" ++ String.mk txt ++ "]]")
    ∧ (lookupA idx (String.mk u) = none →
        replace_link idx (String.mk txt) (String.mk u)
          = "^[Linked entry with UUID `" ++ String.mk u ++ "` not found]") := by
  refine ⟨?_, ?_, ?_⟩
  · rw [linkSubL_inert _ hpre]
    have hm : tryLink ('[' :: (txt ++ ("](dayone://view?entryId=".data
        ++ (u ++ (')' :: post))))) = some (txt, u, post) := by
      show tryText (txt ++ ("](dayone://view?entryId=".data
        ++ (u ++ (')' :: post)))) = some (txt, u, post)
      exact tryText_through _ htxt (tryClose_capture u post hu1 hu2)
    rw [linkSubL_found hm]
  · intro f hf
    unfold replace_link
    rw [hf]
  · intro hf
    unfold replace_link
    rw [hf]

/-- C7 witness: the link rewrite applied at a concrete text containing
one resolvable link, with a one-entry index. -/
theorem link_rewrite_cases_witness :
    linkSubL [("AB12", "2023-05-01.md")] (" see ".data ++ ('[' :: ("my day".data
        ++ ("](dayone://view?entryId=".data ++ ("AB12".data
        ++ (')' :: "!".data))))))
      = " see ".data
          ++ ((replace_link [("AB12", "2023-05-01.md")]
                (String.mk "my day".data) (String.mk "AB12".data)).data
            ++ linkSubL [("AB12", "2023-05-01.md")] "!".data)
    ∧ replace_link [("AB12", "2023-05-01.md")] (String.mk "my day".data)
        (String.mk "AB12".data)
        = "[[" ++ "2023-05-01.md" ++ "|" ++ String.mk "my day".data ++ "]]" := by
  have h := link_rewrite_cases [("AB12", "2023-05-01.md")] " see ".data
    "my day".data "AB12".data "!".data (by decide) (by decide) (by decide)
    (by decide)
  exact ⟨h.1, h.2.1 "2023-05-01.md" (by decide)⟩

/-! ## Claim C10 -/

theorem hexNotBang (c : Char) (h : isHexUp c) : c ≠ '!' := by
  intro hc
  subst hc
  exact absurd h (by decide)

theorem matchMoment_not_bang {pr : List Char} {c : Char} {cs : List Char}
    (h : c ≠ '!') : matchMoment ('!' :: pr) (c :: cs) = none := by
  unfold matchMoment
  have hs : stripPre ('!' :: pr) (c :: cs) = none := by
    show (if '!' = c then stripPre pr cs else none) = none
    rw [if_neg (fun hc => h hc.symm)]
  rw [hs]

theorem subDayOne_inert {pr ext : List Char} {s : List Char} (t : List Char)
    (hs : ∀ c ∈ s, c ≠ '!') :
    subDayOne ('!' :: pr) ext (s ++ t) = s ++ subDayOne ('!' :: pr) ext t := by
  induction s with
  | nil => rfl
  | cons c cr ih =>
    have hc : c ≠ '!' := hs c (by simp)
    rw [List.cons_append, subDayOne_skip ext (matchMoment_not_bang hc),
      ih (fun x hx => hs x (by simp [hx]))]
    rfl

theorem subDayOne_all_inert {pr ext : List Char} {s : List Char}
    (hs : ∀ c ∈ s, c ≠ '!') : subDayOne ('!' :: pr) ext s = s := by
  have h : subDayOne ('!' :: pr) ext (s ++ [])
      = s ++ subDayOne ('!' :: pr) ext [] := subDayOne_inert [] hs
  rw [List.append_nil] at h
  rw [h]
  have h0 : subDayOne ('!' :: pr) ext [] = [] := rfl
  rw [h0, List.append_nil]

theorem matchMoment_capture (pre u r : List Char) (hu1 : u ≠ [])
    (hu2 : ∀ c ∈ u, isHexUp c) :
    matchMoment pre (pre ++ (u ++ (')' :: r))) = some (u, r) := by
  unfold matchMoment
  rw [stripPre_append]
  dsimp only
  have hw := takeWhile_all_append isHexUp ')' r hu2 (by decide)
  rw [hw.1, hw.2]
  dsimp only
  rw [if_pos ⟨hu1, rfl⟩]

theorem subDayOne_capture (pre ext u r : List Char) (hpre : pre ≠ [])
    (hu1 : u ≠ []) (hu2 : ∀ c ∈ u, isHexUp c) :
    subDayOne pre ext (pre ++ (u ++ (')' :: r)))
      = "![[".data ++ u ++ '.' :: ext ++ "]]".data ++ subDayOne pre ext r := by
  cases pre with
  | nil => exact absurd rfl hpre
  | cons p ps =>
    exact subDayOne_found ext
      (show matchMoment (p :: ps) (p :: (ps ++ (u ++ (')' :: r))))
          = some (u, r) from matchMoment_capture (p :: ps) u r hu1 hu2)

theorem matchMoment_embed_head (r : List Char) :
    matchMoment photoPre ('!' :: ('[' :: ('[' :: r))) = none := by
  unfold matchMoment
  rw [show stripPre photoPre ('!' :: ('[' :: ('[' :: r))) = none from rfl]

theorem subDayOne_embed {ext e : List Char} (u t : List Char)
    (hu : ∀ c ∈ u, isHexUp c) (he : ∀ c ∈ e, c ≠ '!') :
    subDayOne photoPre ext
        ('!' :: ('[' :: ('[' :: (u ++ ('.' :: (e ++ (']' :: (']' :: t))))))))
      = '!' :: ('[' :: ('[' :: (u ++ ('.' :: (e ++ (']' :: (']' ::
          subDayOne photoPre ext t))))))) := by
  have hs : ∀ c ∈ ('[' :: ('[' :: (u ++ ('.' :: (e ++ [']', ']']))))),
      c ≠ '!' := by
    intro c hc
    rcases List.mem_cons.mp hc with h1 | hc2
    · subst h1; decide
    rcases List.mem_cons.mp hc2 with h1 | hc3
    · subst h1; decide
    rcases List.mem_append.mp hc3 with h1 | hc4
    · exact hexNotBang c (hu c h1)
    rcases List.mem_cons.mp hc4 with h1 | hc5
    · subst h1; decide
    rcases List.mem_append.mp hc5 with h1 | hc6
    · exact he c h1
    rcases List.mem_cons.mp hc6 with h1 | hc7
    · subst h1; decide
    rcases List.mem_cons.mp hc7 with h1 | hc8
    · subst h1; decide
    · exact absurd hc8 (List.not_mem_nil c)
  have key : subDayOne photoPre ext
      (('[' :: ('[' :: (u ++ ('.' :: (e ++ [']', ']']))))) ++ t)
      = ('[' :: ('[' :: (u ++ ('.' :: (e ++ [']', ']'])))))
        ++ subDayOne photoPre ext t :=
    subDayOne_inert t hs
  have harg : ('!' :: ('[' :: ('[' :: (u ++ ('.' :: (e ++ (']' :: (']' :: t))))))))
      = '!' :: (('[' :: ('[' :: (u ++ ('.' :: (e ++ [']', ']']))))) ++ t) := by
    simp [List.append_assoc]
  have hskip : subDayOne photoPre ext
      ('!' :: (('[' :: ('[' :: (u ++ ('.' :: (e ++ [']', ']']))))) ++ t))
      = '!' :: subDayOne photoPre ext
          (('[' :: ('[' :: (u ++ ('.' :: (e ++ [']', ']']))))) ++ t) :=
    subDayOne_skip ext (matchMoment_embed_head _)
  rw [harg, hskip, key]
  simp [List.append_assoc]

/-- The shape of a text holding two photo placeholders after both have
been rewritten into embeds with the same extension `e`:
`![[u1.e]]` + mid + `![[u2.e]]` + post, written as a character list. -/
def photoEmbedPair (u1 u2 e mid post : List Char) : List Char :=
  '!' :: ('[' :: ('[' :: (u1 ++ ('.' :: (e ++ (']' :: (']' :: (mid ++
    ('!' :: ('[' :: ('[' :: (u2 ++ ('.' :: (e ++ (']' :: (']' ::
      post))))))))))))))))

/-- C10: when an entry carries two or more photo descriptors, the single
global `re.sub` performed while handling the first descriptor already
rewrites every photo placeholder in the text with that first
descriptor's `type` extension; the later iterations find no placeholder
left and change nothing, so every resulting embed carries the first
extension and no later descriptor's extension enters the text. -/
theorem photo_rewrites_use_first_extension
    (m1 i1 : String) (e1 : String) (rest : List JPhoto)
    (u1 u2 mid post : List Char)
    (hu1 : u1 ≠ []) (hu1h : ∀ c ∈ u1, isHexUp c)
    (hu2 : u2 ≠ []) (hu2h : ∀ c ∈ u2, isHexUp c)
    (hmid : ∀ c ∈ mid, c ≠ '!') (hpost : ∀ c ∈ post, c ≠ '!')
    (he1 : ∀ c ∈ e1.data, c ≠ '!') :
    rewritePhotos (⟨m1, i1, e1⟩ :: rest)
        (photoPre ++ (u1 ++ (')' :: (mid
          ++ (photoPre ++ (u2 ++ (')' :: post)))))))
      = photoEmbedPair u1 u2 e1.data mid post := by
  have hfirst : subDayOne photoPre e1.data
      (photoPre ++ (u1 ++ (')' :: (mid
        ++ (photoPre ++ (u2 ++ (')' :: post)))))))
      = photoEmbedPair u1 u2 e1.data mid post := by
    unfold photoEmbedPair
    rw [subDayOne_capture photoPre e1.data u1 _ (by decide) hu1 hu1h]
    have hinert1 : subDayOne photoPre e1.data
        (mid ++ (photoPre ++ (u2 ++ (')' :: post))))
        = mid ++ subDayOne photoPre e1.data
            (photoPre ++ (u2 ++ (')' :: post))) :=
      subDayOne_inert _ hmid
    rw [hinert1, subDayOne_capture photoPre e1.data u2 post (by decide) hu2 hu2h]
    have hin2 : subDayOne photoPre e1.data post = post :=
      subDayOne_all_inert hpost
    rw [hin2, show "![[".data = ['!', '[', '['] from rfl,
      show "]]".data = [']', ']'] from rfl]
    simp [List.append_assoc]
  have hnoop : ∀ ext2 : List Char,
      subDayOne photoPre ext2 (photoEmbedPair u1 u2 e1.data mid post)
        = photoEmbedPair u1 u2 e1.data mid post := by
    intro ext2
    unfold photoEmbedPair
    rw [subDayOne_embed u1 _ hu1h he1]
    have hinert1 : subDayOne photoPre ext2
        (mid ++ ('!' :: ('[' :: ('[' :: (u2 ++ ('.' :: (e1.data
          ++ (']' :: (']' :: post)))))))))
        = mid ++ subDayOne photoPre ext2
            ('!' :: ('[' :: ('[' :: (u2 ++ ('.' :: (e1.data
              ++ (']' :: (']' :: post)))))))) :=
      subDayOne_inert _ hmid
    rw [hinert1, subDayOne_embed u2 post hu2h he1]
    have hin2 : subDayOne photoPre ext2 post = post :=
      subDayOne_all_inert hpost
    rw [hin2]
  show List.foldl (fun acc p => subDayOne photoPre p.type.data acc)
      (subDayOne photoPre e1.data
        (photoPre ++ (u1 ++ (')' :: (mid
          ++ (photoPre ++ (u2 ++ (')' :: post)))))))) rest = _
  rw [hfirst]
  induction rest with
  | nil => rfl
  | cons p ps ih =>
    rw [List.foldl_cons, hnoop p.type.data]
    exact ih

/-! ## Claim C6 -/

theorem append_singleton_ne (d : String) (c : Char) :
    d ++ String.singleton c ≠ d := by
  intro h
  have hl := congrArg String.length h
  rw [String.length_append] at hl
  have h1 : (String.singleton c).length = 1 := rfl
  omega

theorem append_singleton_ne_append (d : String) (c c2 : Char) (h : c ≠ c2) :
    d ++ String.singleton c ≠ d ++ String.singleton c2 := by
  intro hc
  have hd := congrArg String.data hc
  rw [String.data_append, String.data_append] at hd
  have h2 := List.append_cancel_left hd
  have h3 : c = c2 := by
    have h4 : [c] = [c2] := h2
    simpa using h4
  exact h h3

theorem pjStep_some (cfg : Config) (tz : TzOracle) (st : PJState)
    (e : RawEntry) (L : List String)
    (hL : renderLines cfg e (tz e.timeZone e.creationDate) = some L) :
    pjStep cfg tz st e = some (pjCore cfg st e.uuid
      (fmtYMD (tz e.timeZone e.creationDate))
      (toString e.creationDate.year) (fmtYM e.creationDate) L) := by
  unfold pjStep
  dsimp only
  rw [hL]
  rfl

theorem findFree_one (d : String) : findFree [d] d = d ++ "a" := by
  have h97 : String.singleton (Char.ofNat 97) = "a" := rfl
  show findFreeGo [d] d [d].length 97 = d ++ "a"
  rw [show [d].length = 1 from rfl]
  unfold findFreeGo
  dsimp only
  rw [h97, if_neg]
  intro hc
  exact append_singleton_ne d 'a' (by simpa using hc)

theorem findFree_two (d : String) :
    findFree [d, d ++ "a"] d = d ++ "b" := by
  have h97 : String.singleton (Char.ofNat 97) = "a" := rfl
  have h98 : String.singleton (Char.ofNat 98) = "b" := rfl
  show findFreeGo [d, d ++ "a"] d [d, d ++ "a"].length 97 = d ++ "b"
  rw [show [d, d ++ "a"].length = 2 from rfl]
  unfold findFreeGo
  dsimp only
  rw [h97, if_pos (by simp)]
  unfold findFreeGo
  dsimp only
  rw [h98, if_neg]
  intro hc
  rcases List.mem_cons.mp hc with h1 | h1
  · exact append_singleton_ne d 'b' (by simpa using h1)
  · have h2 : d ++ "b" = d ++ "a" := by simpa using h1
    exact append_singleton_ne_append d 'b' 'a' (by decide) (by simpa using h2)

/-- C6: with merge mode disabled, three entries whose local dates share
the day stem `d` are assigned the filename stems `d`, `d ++ "a"`,
`d ++ "b"`, in source order: the first keeps the bare date stem and each
later one gets the first unused alphabetic suffix starting at `a`. -/
theorem collision_suffixes (cfg : Config) (tz : TzOracle)
    (e1 e2 e3 : RawEntry) (L1 L2 L3 : List String) (d : String)
    (hm : cfg.merge_entries = false)
    (h1 : renderLines cfg e1 (tz e1.timeZone e1.creationDate) = some L1)
    (h2 : renderLines cfg e2 (tz e2.timeZone e2.creationDate) = some L2)
    (h3 : renderLines cfg e3 (tz e3.timeZone e3.creationDate) = some L3)
    (hd1 : fmtYMD (tz e1.timeZone e1.creationDate) = d)
    (hd2 : fmtYMD (tz e2.timeZone e2.creationDate) = d)
    (hd3 : fmtYMD (tz e3.timeZone e3.creationDate) = d) :
    ∃ st, processEntries cfg tz [e1, e2, e3] = some st
      ∧ st.entries.map Prod.fst = [d, d ++ "a", d ++ "b"] := by
  have s1 := pjStep_some cfg tz ⟨[], []⟩ e1 L1 h1
  rw [hd1] at s1
  have c1 : pjCore cfg ⟨[], []⟩ e1.uuid d (toString e1.creationDate.year)
      (fmtYM e1.creationDate) L1
      = ⟨[(d, (L1, ⟨toString e1.creationDate.year, fmtYM e1.creationDate,
          d ++ ".md"⟩))], updateAssoc [] e1.uuid (d ++ ".md")⟩ := by
    unfold pjCore
    dsimp only
    rw [if_neg (by simp)]
    simp
  rw [c1] at s1
  have c2 : pjCore cfg
      ⟨[(d, (L1, ⟨toString e1.creationDate.year, fmtYM e1.creationDate,
          d ++ ".md"⟩))], updateAssoc [] e1.uuid (d ++ ".md")⟩
      e2.uuid d (toString e2.creationDate.year) (fmtYM e2.creationDate) L2
      = ⟨[(d, (L1, ⟨toString e1.creationDate.year, fmtYM e1.creationDate,
            d ++ ".md"⟩)),
          (d ++ "a", (L2, ⟨toString e2.creationDate.year,
            fmtYM e2.creationDate, (d ++ "a") ++ ".md"⟩))],
         updateAssoc (updateAssoc [] e1.uuid (d ++ ".md")) e2.uuid
           ((d ++ "a") ++ ".md")⟩ := by
    unfold pjCore
    dsimp only
    simp only [List.map_cons, List.map_nil]
    rw [if_pos (by simp), hm, if_neg (by simp), findFree_one]
    simp
  have s2 := pjStep_some cfg tz
    ⟨[(d, (L1, ⟨toString e1.creationDate.year, fmtYM e1.creationDate,
        d ++ ".md"⟩))], updateAssoc [] e1.uuid (d ++ ".md")⟩ e2 L2 h2
  rw [hd2, c2] at s2
  have c3 : pjCore cfg
      ⟨[(d, (L1, ⟨toString e1.creationDate.year, fmtYM e1.creationDate,
          d ++ ".md"⟩)),
        (d ++ "a", (L2, ⟨toString e2.creationDate.year, fmtYM e2.creationDate,
          (d ++ "a") ++ ".md"⟩))],
       updateAssoc (updateAssoc [] e1.uuid (d ++ ".md")) e2.uuid
         ((d ++ "a") ++ ".md")⟩
      e3.uuid d (toString e3.creationDate.year) (fmtYM e3.creationDate) L3
      = ⟨[(d, (L1, ⟨toString e1.creationDate.year, fmtYM e1.creationDate,
            d ++ ".md"⟩)),
          (d ++ "a", (L2, ⟨toString e2.creationDate.year,
            fmtYM e2.creationDate, (d ++ "a") ++ ".md"⟩)),
          (d ++ "b", (L3, ⟨toString e3.creationDate.year,
            fmtYM e3.creationDate, (d ++ "b") ++ ".md"⟩))],
         updateAssoc (updateAssoc (updateAssoc [] e1.uuid (d ++ ".md"))
           e2.uuid ((d ++ "a") ++ ".md")) e3.uuid ((d ++ "b") ++ ".md")⟩ := by
    unfold pjCore
    dsimp only
    simp only [List.map_cons, List.map_nil]
    rw [if_pos (by simp), hm, if_neg (by simp), findFree_two]
    simp
  have s3 := pjStep_some cfg tz
    ⟨[(d, (L1, ⟨toString e1.creationDate.year, fmtYM e1.creationDate,
        d ++ ".md"⟩)),
      (d ++ "a", (L2, ⟨toString e2.creationDate.year, fmtYM e2.creationDate,
        (d ++ "a") ++ ".md"⟩))],
     updateAssoc (updateAssoc [] e1.uuid (d ++ ".md")) e2.uuid
       ((d ++ "a") ++ ".md")⟩ e3 L3 h3
  rw [hd3, c3] at s3
  refine ⟨⟨[(d, (L1, ⟨toString e1.creationDate.year, fmtYM e1.creationDate,
        d ++ ".md"⟩)),
      (d ++ "a", (L2, ⟨toString e2.creationDate.year, fmtYM e2.creationDate,
        (d ++ "a") ++ ".md"⟩)),
      (d ++ "b", (L3, ⟨toString e3.creationDate.year, fmtYM e3.creationDate,
        (d ++ "b") ++ ".md"⟩))],
     updateAssoc (updateAssoc (updateAssoc [] e1.uuid (d ++ ".md"))
       e2.uuid ((d ++ "a") ++ ".md")) e3.uuid ((d ++ "b") ++ ".md")⟩, ?_, ?_⟩
  · show List.foldlM (pjStep cfg tz) ⟨[], []⟩ [e1, e2, e3] = _
    rw [List.foldlM_cons, s1]
    show List.foldlM (pjStep cfg tz) _ [e2, e3] = _
    rw [List.foldlM_cons, s2]
    show List.foldlM (pjStep cfg tz) _ [e3] = _
    rw [List.foldlM_cons, s3]
    rfl
  · simp

/-- The configuration of the suffix scenario: merge disabled, no YAML,
no link conversion. -/
def cfg6 : Config :=
  { tagPrefix := "#on/", convert_links := false, yaml := false,
    merge_entries := false, entries_separator := "---\n---",
    ignore_tags := [] }

/-- Three concrete entries on the same local day. -/
def e61 : RawEntry :=
  { uuid := "AA11", creationDate := ⟨2023, 5, 1, 8, 0, 0, 0⟩,
    timeZone := "UTC", starred := false, text := some "One", tags := none,
    location := none, weather := none, photos := none,
    pdfAttachments := none, audios := none, videos := none }

/-- Second entry of the suffix scenario. -/
def e62 : RawEntry := { e61 with uuid := "BB22", text := some "Two" }

/-- Third entry of the suffix scenario. -/
def e63 : RawEntry := { e61 with uuid := "CC33", text := some "Three" }

/-- The rendered lines of `e61` (and, mutatis mutandis, its siblings). -/
def L61 : List String :=
  ["up:: [[Day One MOC]]\n", "dates:: 2023-05-01T08:00:00+00:00\n",
   "timezone:: UTC\n", "places:: \n", "\n\n", "One",
   "\n\n%%\nuuid:: AA11\n"]

/-- Rendered lines of `e62`. -/
def L62 : List String :=
  ["up:: [[Day One MOC]]\n", "dates:: 2023-05-01T08:00:00+00:00\n",
   "timezone:: UTC\n", "places:: \n", "\n\n", "Two",
   "\n\n%%\nuuid:: BB22\n"]

/-- Rendered lines of `e63`. -/
def L63 : List String :=
  ["up:: [[Day One MOC]]\n", "dates:: 2023-05-01T08:00:00+00:00\n",
   "timezone:: UTC\n", "places:: \n", "\n\n", "Three",
   "\n\n%%\nuuid:: CC33\n"]

/-- C6 witness: the collision-suffix theorem applied at three concrete
same-day entries. -/
theorem collision_suffixes_witness :
    ∃ st, processEntries cfg6 tzId [e61, e62, e63] = some st
      ∧ st.entries.map Prod.fst
          = ["2023-05-01", "2023-05-01" ++ "a", "2023-05-01" ++ "b"] :=
  collision_suffixes cfg6 tzId e61 e62 e63 L61 L62 L63 "2023-05-01"
    (by decide) (by decide) (by decide) (by decide) (by decide) (by decide)
    (by decide)

/-! ## Claim C1 -/

/-- C1 amended: in merge mode, two entries on the same local day produce
exactly one output file, keyed by the shared date stem, whose content is
the first entry's full rendered lines (metadata block included — in
particular its `dates::` field is NOT discarded), then the configured
separator framed by blank lines, then the second entry's full rendered
lines; both UUIDs resolve to that one file in the link index. -/
theorem merge_single_file (cfg : Config) (tz : TzOracle) (e1 e2 : RawEntry)
    (L1 L2 : List String) (d : String)
    (hm : cfg.merge_entries = true) (hcl : cfg.convert_links = false)
    (h1 : renderLines cfg e1 (tz e1.timeZone e1.creationDate) = some L1)
    (h2 : renderLines cfg e2 (tz e2.timeZone e2.creationDate) = some L2)
    (hd1 : fmtYMD (tz e1.timeZone e1.creationDate) = d)
    (hd2 : fmtYMD (tz e2.timeZone e2.creationDate) = d) :
    process_journal cfg tz [e1, e2]
      = some ([(⟨toString e2.creationDate.year, fmtYM e2.creationDate,
            d ++ ".md"⟩,
          String.join (L1 ++ ["\n\n" ++ cfg.entries_separator ++ "\n\n"]
            ++ L2))],
        updateAssoc (updateAssoc [] e1.uuid (d ++ ".md")) e2.uuid
          (d ++ ".md")) := by
  have s1 := pjStep_some cfg tz ⟨[], []⟩ e1 L1 h1
  rw [hd1] at s1
  have c1 : pjCore cfg ⟨[], []⟩ e1.uuid d (toString e1.creationDate.year)
      (fmtYM e1.creationDate) L1
      = ⟨[(d, (L1, ⟨toString e1.creationDate.year, fmtYM e1.creationDate,
          d ++ ".md"⟩))], updateAssoc [] e1.uuid (d ++ ".md")⟩ := by
    unfold pjCore
    dsimp only
    rw [if_neg (by simp)]
    simp
  rw [c1] at s1
  have c2 : pjCore cfg
      ⟨[(d, (L1, ⟨toString e1.creationDate.year, fmtYM e1.creationDate,
          d ++ ".md"⟩))], updateAssoc [] e1.uuid (d ++ ".md")⟩
      e2.uuid d (toString e2.creationDate.year) (fmtYM e2.creationDate) L2
      = ⟨[(d, (L1 ++ ["\n\n" ++ cfg.entries_separator ++ "\n\n"] ++ L2,
            ⟨toString e2.creationDate.year, fmtYM e2.creationDate,
              d ++ ".md"⟩))],
         updateAssoc (updateAssoc [] e1.uuid (d ++ ".md")) e2.uuid
           (d ++ ".md")⟩ := by
    unfold pjCore
    dsimp only
    simp only [List.map_cons, List.map_nil]
    rw [if_pos (by simp), hm, if_pos rfl]
    simp [lookupA]
  have s2 := pjStep_some cfg tz
    ⟨[(d, (L1, ⟨toString e1.creationDate.year, fmtYM e1.creationDate,
        d ++ ".md"⟩))], updateAssoc [] e1.uuid (d ++ ".md")⟩ e2 L2 h2
  rw [hd2, c2] at s2
  have hpe : processEntries cfg tz [e1, e2]
      = some ⟨[(d, (L1 ++ ["\n\n" ++ cfg.entries_separator ++ "\n\n"] ++ L2,
            ⟨toString e2.creationDate.year, fmtYM e2.creationDate,
              d ++ ".md"⟩))],
         updateAssoc (updateAssoc [] e1.uuid (d ++ ".md")) e2.uuid
           (d ++ ".md")⟩ := by
    show List.foldlM (pjStep cfg tz) ⟨[], []⟩ [e1, e2] = _
    rw [List.foldlM_cons, s1]
    show List.foldlM (pjStep cfg tz) _ [e2] = _
    rw [List.foldlM_cons, s2]
    rfl
  unfold process_journal
  rw [hpe]
  show some (writeOut cfg _, _) = _
  rw [show writeOut cfg ⟨[(d, (L1 ++ ["\n\n" ++ cfg.entries_separator
        ++ "\n\n"] ++ L2, ⟨toString e2.creationDate.year,
        fmtYM e2.creationDate, d ++ ".md"⟩))],
      updateAssoc (updateAssoc [] e1.uuid (d ++ ".md")) e2.uuid
        (d ++ ".md")⟩
      = [(⟨toString e2.creationDate.year, fmtYM e2.creationDate,
          d ++ ".md"⟩,
        String.join (L1 ++ ["\n\n" ++ cfg.entries_separator ++ "\n\n"]
          ++ L2))] from by simp [writeOut, hcl]]

/-- The merge-mode configuration of the C1 scenario. -/
def cfg1 : Config :=
  { tagPrefix := "#on/", convert_links := false, yaml := false,
    merge_entries := true, entries_separator := "---\n---",
    ignore_tags := [] }

/-- First (morning) entry of the merge scenario. -/
def e11 : RawEntry :=
  { uuid := "AA11", creationDate := ⟨2023, 5, 1, 8, 0, 0, 0⟩,
    timeZone := "UTC", starred := false, text := some "Morning",
    tags := none, location := none, weather := none, photos := none,
    pdfAttachments := none, audios := none, videos := none }

/-- Second (evening) entry of the merge scenario, same local day. -/
def e12 : RawEntry :=
  { uuid := "BB22", creationDate := ⟨2023, 5, 1, 21, 0, 0, 0⟩,
    timeZone := "UTC", starred := false, text := some "Evening",
    tags := none, location := none, weather := none, photos := none,
    pdfAttachments := none, audios := none, videos := none }

/-- C1 counterexample: in merge mode the two same-day entries do land in
exactly one output file, but that file still contains the superseded
first entry's `dates::` metadata line — the `created`/date field of the
popped entry is not discarded, contradicting the claim. -/
theorem merge_retains_superseded_date_field :
    (process_journal cfg1 tzId [e11, e12]).map (fun p =>
        (p.1.map Prod.fst,
         p.1.map (fun f => strContains f.2
           "dates:: 2023-05-01T08:00:00+00:00")))
      = some ([⟨"2023", "2023-05", "2023-05-01.md"⟩], [true]) := by
  decide

/-- Rendered lines of `e11`. -/
def L11 : List String :=
  ["up:: [[Day One MOC]]\n", "dates:: 2023-05-01T08:00:00+00:00\n",
   "timezone:: UTC\n", "places:: \n", "\n\n", "Morning",
   "\n\n%%\nuuid:: AA11\n"]

/-- Rendered lines of `e12`. -/
def L12 : List String :=
  ["up:: [[Day One MOC]]\n", "dates:: 2023-05-01T21:00:00+00:00\n",
   "timezone:: UTC\n", "places:: \n", "\n\n", "Evening",
   "\n\n%%\nuuid:: BB22\n"]

/-- C1 witness: the amended merge property applied at the concrete
morning/evening pair. -/
theorem merge_single_file_witness :
    process_journal cfg1 tzId [e11, e12]
      = some ([(⟨toString (2023 : Nat), fmtYM ⟨2023, 5, 1, 21, 0, 0, 0⟩,
            "2023-05-01" ++ ".md"⟩,
          String.join (L11 ++ ["\n\n" ++ cfg1.entries_separator ++ "\n\n"]
            ++ L12))],
        updateAssoc (updateAssoc [] "AA11" ("2023-05-01" ++ ".md")) "BB22"
          ("2023-05-01" ++ ".md")) :=
  merge_single_file cfg1 tzId e11 e12 L11 L12 "2023-05-01" (by decide)
    (by decide) (by decide) (by decide) (by decide) (by decide)

/-! ## Claim C3 -/

/-- The configuration of the end-to-end scenario: tag prefix `#on/`, no
ignore tags, merge disabled, YAML disabled. -/
def cfg3 : Config :=
  { tagPrefix := "#on/", convert_links := false, yaml := false,
    merge_entries := false, entries_separator := "---\n---",
    ignore_tags := [] }

/-- The 2023-05-01 entry tagged `["Travel"]`. -/
def e31 : RawEntry :=
  { uuid := "A1B2", creationDate := ⟨2023, 5, 1, 7, 30, 0, 0⟩,
    timeZone := "UTC", starred := false, text := some "First day",
    tags := some ["Travel"], location := none, weather := none,
    photos := none, pdfAttachments := none, audios := none, videos := none }

/-- The 2023-05-02 entry, untagged and unstarred. -/
def e32 : RawEntry :=
  { uuid := "C3D4", creationDate := ⟨2023, 5, 2, 7, 30, 0, 0⟩,
    timeZone := "UTC", starred := false, text := some "Second day",
    tags := none, location := none, weather := none, photos := none,
    pdfAttachments := none, audios := none, videos := none }

/-- The content written for `e31`. -/
def c31 : String :=
  "up:: [[Day One MOC]]\ndates:: 2023-05-01T07:30:00+00:00\n"
    ++ "timezone:: UTC\nplaces:: \ntags:: #on/travel\n\n\nFirst day"
    ++ "\n\n%%\nuuid:: A1B2\n"

/-- The content written for `e32`. -/
def c32 : String :=
  "up:: [[Day One MOC]]\ndates:: 2023-05-02T07:30:00+00:00\n"
    ++ "timezone:: UTC\nplaces:: \n\n\nSecond day\n\n%%\nuuid:: C3D4\n"

/-- C3 counterexample: the scenario does produce exactly the two claimed
files `2023/2023-05/2023-05-01.md` and `2023/2023-05/2023-05-02.md`, but
neither contains the claimed line `tags:: #On/Travel`: `capwords`
uppercases only the first character of each space-separated word, and
the first character of `#on/Travel` is `#`, while the rest is
lowercased. -/
theorem scenario_tags_not_capitalized :
    (process_journal cfg3 tzId [e31, e32]).map (fun p =>
        (p.1.map Prod.fst,
         p.1.map (fun f => strContains f.2 "tags:: #On/Travel")))
      = some ([⟨"2023", "2023-05", "2023-05-01.md"⟩,
               ⟨"2023", "2023-05", "2023-05-02.md"⟩], [false, false]) := by
  decide

/-- C3 amended: the scenario yields exactly the two output files
`2023/2023-05/2023-05-01.md` and `2023/2023-05/2023-05-02.md`, and the
first one contains the line `tags:: #on/travel` (the tag is rendered
all-lowercase after the `#` because `capwords` capitalizes at
space-separated word starts only). -/
theorem scenario_two_files_lowercase_tag :
    process_journal cfg3 tzId [e31, e32]
      = some ([(⟨"2023", "2023-05", "2023-05-01.md"⟩, c31),
               (⟨"2023", "2023-05", "2023-05-02.md"⟩, c32)],
          [("A1B2", "2023-05-01.md"), ("C3D4", "2023-05-02.md")])
    ∧ strContains c31 "tags:: #on/travel" = true :=
  ⟨by decide, by decide⟩

/-! ## Claim C2 -/

theorem processJournalFolder_sources {cfg : Config} {tz : TzOracle} {st : FolderState}
    {j : Journal} {st' : FolderState}
    (h : processJournalFolder cfg tz st j = some st') :
    st'.sources = st.sources := by
  unfold processJournalFolder at h
  cases hj : journalFiles cfg tz j with
  | none => rw [hj] at h; exact Option.noConfusion h
  | some fl =>
    rw [hj] at h
    have h2 : some (⟨st.sources,
        Function.update st.outputs (journalFolderName j) fl⟩ : FolderState)
        = some st' := h
    rw [← Option.some.inj h2]

theorem foldlM_folder_sources (cfg : Config) (tz : TzOracle) :
    ∀ (js : List Journal) (st st' : FolderState),
      js.foldlM (processJournalFolder cfg tz) st = some st' →
      st'.sources = st.sources := by
  intro js
  induction js with
  | nil =>
    intro st st' h
    have h2 : some st = some st' := h
    rw [← Option.some.inj h2]
  | cons j rest ih =>
    intro st st' h
    rw [List.foldlM_cons] at h
    cases hj : processJournalFolder cfg tz st j with
    | none => rw [hj] at h; exact Option.noConfusion h
    | some s1 =>
      rw [hj] at h
      have h3 := ih s1 st' h
      rw [h3, processJournalFolder_sources hj]

/-- C2 amended: `convert` marks nothing as consumed — after a run the
source `*.json` journal files are exactly as before (no rename, no
numeric prefix), and a repeated run over the same (single-journal)
folder reprocesses the journal: it deletes and rewrites the output
subfolder with identical contents, leaving the folder state unchanged. -/
theorem convert_no_consume (cfg : Config) (tz : TzOracle)
    (st st₁ : FolderState) (h : convert cfg tz st = some st₁) :
    st₁.sources = st.sources
    ∧ (∀ j, st.sources = [j] → convert cfg tz st₁ = some st₁) := by
  constructor
  · exact foldlM_folder_sources cfg tz st.sources st st₁ h
  · intro j hs
    have hsrc : st₁.sources = st.sources :=
      foldlM_folder_sources cfg tz st.sources st st₁ h
    unfold convert at h ⊢
    rw [hs] at h
    rw [hsrc, hs]
    rw [List.foldlM_cons] at h ⊢
    simp only [List.foldlM_nil] at h ⊢
    have h1 : processJournalFolder cfg tz st j = some st₁ := by
      cases hj : processJournalFolder cfg tz st j with
      | none => rw [hj] at h; exact Option.noConfusion h
      | some s1 =>
        rw [hj] at h
        have h2 : some s1 = some st₁ := h
        exact h2
    unfold processJournalFolder at h1 ⊢
    cases hj : journalFiles cfg tz j with
    | none => rw [hj] at h1; exact Option.noConfusion h1
    | some fl =>
      rw [hj] at h1
      have h2 : some (⟨st.sources,
          Function.update st.outputs (journalFolderName j) fl⟩ : FolderState)
          = some st₁ := h1
      have h3 := Option.some.inj h2
      show (some (⟨st₁.sources,
          Function.update st₁.outputs (journalFolderName j) fl⟩
            : FolderState) : Option FolderState) = some st₁
      rw [← h3]
      show some (⟨st.sources, Function.update (Function.update st.outputs
        (journalFolderName j) fl) (journalFolderName j) fl⟩ : FolderState)
        = _
      rw [Function.update_idem]

/-- A concrete source journal file named `Admin.json` (stem `Admin`). -/
def jAdmin : Journal := ⟨"Admin", [e31]⟩

/-- A folder holding the single journal `Admin.json` and no outputs. -/
def fs0 : FolderState := ⟨[jAdmin], fun _ => []⟩

/-- C2 counterexample: after a successful `convert` run over the folder,
the source journal list is unchanged — `Admin.json` keeps its name, no
incrementing numeric prefix or any other consumed-marker is applied, so
a repeated run reprocesses it (nothing in `process_journal` or `convert`
renames a source file; the only renames in the code touch attachment
binaries). -/
theorem source_file_not_renamed :
    (convert cfg3 tzId fs0).map FolderState.sources = some [jAdmin]
    ∧ jAdmin.stem = "Admin" :=
  ⟨by decide, by decide⟩

/-- C2 witness: the amended no-consume property applied at the concrete
single-journal folder. -/
theorem convert_no_consume_witness :
    ∃ st₁, convert cfg3 tzId fs0 = some st₁
      ∧ st₁.sources = fs0.sources
      ∧ convert cfg3 tzId st₁ = some st₁ := by
  have hc : convert cfg3 tzId fs0
      = some ⟨fs0.sources, Function.update fs0.outputs
          (journalFolderName jAdmin)
          ((journalFiles cfg3 tzId jAdmin).getD [])⟩ := rfl
  have hp := convert_no_consume cfg3 tzId fs0 _ hc
  exact ⟨_, hc, hp.1, hp.2 jAdmin rfl⟩

/-- C10 witness: the first-extension property applied at a concrete text
with two placeholders and two photo descriptors whose extensions differ
(`jpeg` then `png`): both embeds come out with `.jpeg`. -/
theorem photo_rewrites_use_first_extension_witness :
    rewritePhotos [⟨"9f0a", "id1", "jpeg"⟩, ⟨"8e1b", "id2", "png"⟩]
        (photoPre ++ ("AB12".data ++ (')' :: ("\n".data
          ++ (photoPre ++ ("CD34".data ++ (')' :: "end".data)))))))
      = photoEmbedPair "AB12".data "CD34".data "jpeg".data "\n".data
          "end".data :=
  photo_rewrites_use_first_extension "9f0a" "id1" "jpeg"
    [⟨"8e1b", "id2", "png"⟩] "AB12".data "CD34".data "\n".data "end".data
    (by decide) (by decide) (by decide) (by decide) (by decide) (by decide)
    (by decide)
